import Mathlib

/-!
# Dymension v4 upgrade handler: a shallow embedding

Source: `app/upgrades/v4/upgrade.go`.

Go strings are byte sequences; they are embedded as `List Nat` (one entry per
byte), so that `len`, slicing `s[:5]` and the comparison operators are the
byte-wise ones of Go.  Unsigned integers that are only stored and copied are
embedded as `Nat`.
-/

namespace V4

/-- A Go `string`: the sequence of its bytes. -/
abbrev GoString := List Nat

/-- An ASCII literal as a Go string. -/
def str (s : String) : GoString := s.toList.map Char.toNat

/-! ## Go runtime: string comparison -/

/-- Go's `a < b` on strings: byte-wise lexicographic order. -/
def strLt : GoString → GoString → Bool
  | [], [] => false
  | [], _ :: _ => true
  | _ :: _, [] => false
  | x :: xs, y :: ys => if x < y then true else if y < x then false else strLt xs ys

/-- Go's `strings.Compare`: `0` if `a == b`, `-1` if `a < b`, `+1` otherwise. -/
def strings_Compare (a b : GoString) : Int :=
  if a = b then 0 else if strLt a b then -1 else 1

/-! ## Data model (`rollapptypes`) -/

/-- The type `rollapptypes.StateInfoIndex`. -/
structure StateInfoIndex where
  RollappId : GoString
  Index : Nat
deriving DecidableEq, Repr

/-- The type `rollapptypes.BlockHeightToFinalizationQueue`. -/
structure BlockHeightToFinalizationQueue where
  CreationHeight : Nat
  FinalizationQueue : List StateInfoIndex
  RollappId : GoString
deriving DecidableEq, Repr

/-! ## Go runtime: maps, `range`, `slices.SortFunc` -/

/-- A Go `map[string][]StateInfoIndex`: an association list whose keys are
pairwise different.  The position of an entry carries no meaning. -/
abbrev GoMap := List (GoString × List StateInfoIndex)

/-- The read `m[k]`: the zero value (a nil slice) when `k` is absent. -/
def mapGet : GoMap → GoString → List StateInfoIndex
  | [], _ => []
  | (k', v) :: m, k => if k' = k then v else mapGet m k

/-- The assignment `m[k] = v`. -/
def mapSet : GoMap → GoString → List StateInfoIndex → GoMap
  | [], k, v => [(k, v)]
  | (k', v') :: m, k, v => if k' = k then (k', v) :: m else (k', v') :: mapSet m k v

/-- What Go promises about `for k, v := range m`: every entry is visited once,
in an unspecified order. -/
def MapRangeContract (rangeOrder : GoMap → List (GoString × List StateInfoIndex)) : Prop :=
  ∀ m, (rangeOrder m).Perm m

/-- Insertion of one element into a slice sorted by `cmp`. -/
def orderedInsertFunc {α : Type} (cmp : α → α → Int) (a : α) : List α → List α
  | [] => [a]
  | b :: l => if cmp a b < 0 then a :: b :: l else b :: orderedInsertFunc cmp a l

/-- An executable stand-in for `slices.SortFunc(x, cmp)`: insertion sort (which is
also what Go's pattern-defeating quicksort runs on slices shorter than 12). -/
def slices_SortFunc {α : Type} (cmp : α → α → Int) (l : List α) : List α :=
  l.foldr (orderedInsertFunc cmp) []

/-- What Go promises about `slices.SortFunc(x, cmp)`: the result is a
rearrangement of `x` that `slices.IsSortedFunc` accepts (no later element
compares below an earlier one).  The sort is not guaranteed to be stable. -/
def SortFuncContract {α : Type} (cmp : α → α → Int) (sortFunc : List α → List α) : Prop :=
  ∀ l, (sortFunc l).Perm l ∧ (sortFunc l).Pairwise (fun a b => 0 ≤ cmp b a)

/-! ## `ReformatFinalizationQueue` -/

/-- The grouping loop: `grouped[index.RollappId] = append(grouped[index.RollappId], index)`
for every index of the queue, starting from the empty map. -/
def groupIndexes (queue : List StateInfoIndex) : GoMap :=
  queue.foldl (fun grouped index =>
    mapSet grouped index.RollappId (mapGet grouped index.RollappId ++ [index])) []

/-- The comparison closure handed to `slices.SortFunc`. -/
def compareRollappId (a b : BlockHeightToFinalizationQueue) : Int :=
  strings_Compare a.RollappId b.RollappId

/-- The cast of the map to a slice, for one order of the `range` loop. -/
def castToSlice (creationHeight : Nat) (entries : List (GoString × List StateInfoIndex)) :
    List BlockHeightToFinalizationQueue :=
  entries.map (fun e =>
    { CreationHeight := creationHeight, FinalizationQueue := e.2, RollappId := e.1 })

/-- The function `ReformatFinalizationQueue`, with the two sources of
nondeterminism made explicit: the order in which `range grouped` visits the
map and the sorting routine. -/
def ReformatFinalizationQueueWith
    (rangeOrder : GoMap → List (GoString × List StateInfoIndex))
    (sortFunc : List BlockHeightToFinalizationQueue → List BlockHeightToFinalizationQueue)
    (queue : BlockHeightToFinalizationQueue) : List BlockHeightToFinalizationQueue :=
  sortFunc (castToSlice queue.CreationHeight (rangeOrder (groupIndexes queue.FinalizationQueue)))

/-- One run of `ReformatFinalizationQueue`: the map is visited in insertion
order and the slice is sorted by insertion sort. -/
def ReformatFinalizationQueue (queue : BlockHeightToFinalizationQueue) :
    List BlockHeightToFinalizationQueue :=
  ReformatFinalizationQueueWith id (slices_SortFunc compareRollappId) queue

/-! ## `migrateDelayedAckPacketIndex` -/

/-- The type `ibctransfertypes.FungibleTokenPacketData`, the two parties. -/
structure FungibleTokenPacketData where
  Sender : GoString
  Receiver : GoString
deriving DecidableEq, Repr

/-- Modelled from the spec: the direction `ON_RECV` of the protobuf enum
`commontypes.RollappPacket_Type` (an `int32` in Go), whose generated
declaration is absent from the sources. -/
def RollappPacket_ON_RECV : Int := 0

/-- Modelled from the spec: the direction `ON_ACK` of `commontypes.RollappPacket_Type`. -/
def RollappPacket_ON_ACK : Int := 1

/-- Modelled from the spec: the direction `ON_TIMEOUT` of `commontypes.RollappPacket_Type`. -/
def RollappPacket_ON_TIMEOUT : Int := 2

/-- Modelled from the spec: the status `PENDING` of the protobuf enum
`commontypes.Status` (an `int32` in Go), whose generated declaration is absent
from the sources. -/
def Status_PENDING : Int := 0

/-- Modelled from the spec: the status `FINALIZED` of `commontypes.Status`. -/
def Status_FINALIZED : Int := 1

/-- Modelled from the spec: the status `REVERTED` of `commontypes.Status`. -/
def Status_REVERTED : Int := 2

/-- The type `commontypes.RollappPacket`, the fields this file reads, with the
raw transfer payload and the channel sequence of the wrapped IBC packet
(`Type_` is the Go field `Type`). -/
structure RollappPacket where
  RollappId : GoString
  Sequence : Nat
  Data : GoString
  Status : Int
  ProofHeight : Nat
  Type_ : Int
deriving DecidableEq, Repr

/-- Modelled from the spec: the two methods of `commontypes.RollappPacket`
called by the migration, whose bodies are absent from the sources: the
transfer-payload decoder (`none` is a decoding error) and the packet key. -/
structure PacketMethods where
  GetTransferPacketData : RollappPacket → Option FungibleTokenPacketData
  RollappPacketKey : RollappPacket → GoString

/-- Modelled from the spec: the state of `delayedackkeeper.Keeper` touched by
the migration, the primary packet store and the set of
`(address, packet key)` pairs of the pending-by-address index. -/
structure DelayedAckKeeper where
  rollappPackets : List RollappPacket
  pendingPacketsByAddress : List (GoString × GoString)
deriving DecidableEq, Repr

/-- Modelled from the spec: `dk.ListRollappPackets(ctx, ByStatus(status))`, the
stored packets with that status. -/
def ListRollappPacketsByStatus (dk : DelayedAckKeeper) (status : Int) : List RollappPacket :=
  dk.rollappPackets.filter (fun p => p.Status = status)

/-- Modelled from the spec: `dk.MustSetPendingPacketByAddress(ctx, address, key)`,
which adds the pair to the index (a key set: adding a present pair changes nothing). -/
def MustSetPendingPacketByAddress (dk : DelayedAckKeeper) (address key : GoString) :
    DelayedAckKeeper :=
  if (address, key) ∈ dk.pendingPacketsByAddress then dk
  else { dk with pendingPacketsByAddress := dk.pendingPacketsByAddress ++ [(address, key)] }

/-- The body of the loop of `migrateDelayedAckPacketIndex` over the pending
packets.  The result is the keeper as the function leaves it and the returned
error (`none` is `nil`). -/
def migrateDelayedAckPacketLoop (pm : PacketMethods) :
    List RollappPacket → DelayedAckKeeper → DelayedAckKeeper × Option GoString
  | [], dk => (dk, none)
  | packet :: rest, dk =>
    match pm.GetTransferPacketData packet with
    | none => (dk, some (str "unmarshal transfer data"))
    | some pd =>
      if packet.Type_ = RollappPacket_ON_RECV then
        migrateDelayedAckPacketLoop pm rest
          (MustSetPendingPacketByAddress dk pd.Receiver (pm.RollappPacketKey packet))
      else if packet.Type_ = RollappPacket_ON_ACK ∨ packet.Type_ = RollappPacket_ON_TIMEOUT then
        migrateDelayedAckPacketLoop pm rest
          (MustSetPendingPacketByAddress dk pd.Sender (pm.RollappPacketKey packet))
      else
        migrateDelayedAckPacketLoop pm rest dk

/-- The function `migrateDelayedAckPacketIndex`. -/
def migrateDelayedAckPacketIndex (pm : PacketMethods) (dk : DelayedAckKeeper) :
    DelayedAckKeeper × Option GoString :=
  migrateDelayedAckPacketLoop pm (ListRollappPacketsByStatus dk Status_PENDING) dk

/-- The policy of the specification, in its words: the counterparty address
is the receiver for `ON_RECV` and the sender for `ON_ACK`/`ON_TIMEOUT`; a
packet with another direction, or whose payload does not decode, has none. -/
def policyCounterpartyAddress (pm : PacketMethods) (p : RollappPacket) : Option GoString :=
  match pm.GetTransferPacketData p with
  | none => none
  | some pd =>
    if p.Type_ = RollappPacket_ON_RECV then some pd.Receiver
    else if p.Type_ = RollappPacket_ON_ACK ∨ p.Type_ = RollappPacket_ON_TIMEOUT then some pd.Sender
    else none

/-- A payload format for the examples: the first byte is the sender, the
second the receiver; shorter payloads do not decode. -/
def samplePacketMethods : PacketMethods where
  GetTransferPacketData p :=
    match p.Data with
    | s :: r :: _ => some { Sender := [s], Receiver := [r] }
    | _ => none
  RollappPacketKey p := [p.Status.toNat, p.ProofHeight, p.Type_.toNat, p.Sequence]

/-- A packet for the examples, from rollapp `r`, sender `S`, receiver `R`. -/
def samplePacket (sequence : Nat) (status type : Int) : RollappPacket :=
  { RollappId := str "r", Sequence := sequence, Data := str "SR", Status := status,
    ProofHeight := 7, Type_ := type }

/-! ## Rollapps: `migrateRollappLightClients`, `ConvertOldRollappToNew`, `migrateRollapps` -/

/-- The type `rollapptypes.DenomMetadata`. -/
structure DenomMetadata where
  Display : GoString
  Base : GoString
  Exponent : Nat
deriving DecidableEq, Repr

/-- The type `rollapptypes.GenesisInfo`, the fields the conversion fills. -/
structure GenesisInfo where
  Bech32Prefix : GoString
  GenesisChecksum : GoString
  NativeDenom : DenomMetadata
  InitialSupply : Int
  Sealed : Bool
deriving DecidableEq, Repr

/-- The type `rollapptypes.RollappGenesisState`, the field the conversion writes. -/
structure RollappGenesisState where
  TransferProofHeight : Nat
deriving DecidableEq, Repr

/-- The type `rollapptypes.RollappMetadata`. -/
structure RollappMetadata where
  Website : GoString
  Description : GoString
  LogoUrl : GoString
  Telegram : GoString
  X : GoString
  GenesisUrl : GoString
  DisplayName : GoString
  Tagline : GoString
  FeeDenom : Option DenomMetadata
deriving DecidableEq, Repr

/-- The enum `rollapptypes.Rollapp_VMType`. -/
inductive Rollapp_VMType where
  | Rollapp_Unspecified
  | Rollapp_EVM
  | Rollapp_WASM
deriving DecidableEq, Repr

/-- The type `rollapptypes.Revision`. -/
structure Revision where
  Number : Nat
  StartHeight : Nat
deriving DecidableEq, Repr

/-- The type `rollapptypes.Rollapp`, the fields the conversion names. A nil
pointer is `none`; `sdk.Coins` is a list of denominations with amounts. -/
structure Rollapp where
  RollappId : GoString
  Owner : GoString
  GenesisState : RollappGenesisState
  ChannelId : GoString
  Metadata : Option RollappMetadata
  GenesisInfo : GenesisInfo
  InitialSequencer : GoString
  MinSequencerBond : List (GoString × Nat)
  VmType : Rollapp_VMType
  Launched : Bool
  PreLaunchTime : Option Nat
  LivenessEventHeight : Int
  LivenessCountdownStartHeight : Int
  Revisions : List Revision
deriving DecidableEq, Repr

/-- The IBC connection end returned by `GetChannelConnection`, with the field
read by `GetClientID`. -/
structure ConnectionEnd where
  ClientId : GoString
deriving DecidableEq, Repr

/-- The constant `ibctransfertypes.PortID`. -/
def PortID : GoString := str "transfer"

/-- Modelled from the spec: the state of `lightclientkeeper.Keeper` written by
the migration, the canonical bindings `{rollappID, clientID}`, at most one per
rollapp. -/
abbrev LightClientKeeper := List (GoString × GoString)

/-- Modelled from the spec: `Resolve(rollappID)`, the client bound to the
rollapp; `none` is `NotFound`. -/
def GetCanonicalClient : LightClientKeeper → GoString → Option GoString
  | [], _ => none
  | (r, c) :: lk, rollappId => if r = rollappId then some c else GetCanonicalClient lk rollappId

/-- Modelled from the spec: `Bind(rollappID, clientID)` sets the binding; it
fails with `Conflict` if a different `clientID` is already bound for the
rollapp, and the original binding is then left intact. -/
def Bind (lk : LightClientKeeper) (rollappId clientID : GoString) :
    Except GoString LightClientKeeper :=
  match GetCanonicalClient lk rollappId with
  | none => Except.ok (lk ++ [(rollappId, clientID)])
  | some bound => if bound = clientID then Except.ok lk else Except.error (str "Conflict")

/-- Modelled from the spec: the call
`lightClientKeeper.SetCanonicalClient(ctx, rollappId, clientID)`, whose body is
absent from the sources, is a `Bind`.  The call statement of
`migrateRollappLightClients` reads no result: after a bind that fails the keeper
is as it was and the loop goes on. -/
def SetCanonicalClient (lk : LightClientKeeper) (rollappId clientID : GoString) :
    LightClientKeeper :=
  match Bind lk rollappId clientID with
  | Except.ok lk' => lk'
  | Except.error _ => lk

/-- The loop of `migrateRollappLightClients` over the rollapps of the store.
`GetChannelConnection port channel` is the lookup of the IBC channel keeper
(`none` is its error).  The result is the light client keeper as the
function leaves it and the returned error (`none` is `nil`). -/
def migrateRollappLightClients
    (GetChannelConnection : GoString → GoString → Option (GoString × ConnectionEnd)) :
    List Rollapp → LightClientKeeper → LightClientKeeper × Option GoString
  | [], lk => (lk, none)
  | rollapp :: rest, lk =>
    if rollapp.ChannelId = [] then
      migrateRollappLightClients GetChannelConnection rest lk
    else
      match GetChannelConnection PortID rollapp.ChannelId with
      | none => (lk, some (str "could not find a connection for channel"))
      | some (_, connection) =>
        migrateRollappLightClients GetChannelConnection rest
          (SetCanonicalClient lk rollapp.RollappId connection.ClientId)

/-- The bindings the migration is to make, in the order of the store: for each
rollapp with a non-empty `ChannelId` whose transfer-port channel has a
connection, its `RollappId` with the client id of that connection. -/
def canonicalBindings
    (GetChannelConnection : GoString → GoString → Option (GoString × ConnectionEnd))
    (list : List Rollapp) : List (GoString × GoString) :=
  list.filterMap (fun rollapp =>
    if rollapp.ChannelId = [] then none
    else (GetChannelConnection PortID rollapp.ChannelId).map
      (fun conn => (rollapp.RollappId, conn.2.ClientId)))

/-- The calls `SetCanonicalClient(ctx, rollappId, clientID)` for a list of
bindings, one after the other. -/
def setCanonicalClients (lk : LightClientKeeper) (bindings : List (GoString × GoString)) :
    LightClientKeeper :=
  bindings.foldl (fun k b => SetCanonicalClient k b.1 b.2) lk

/-- The package-level constants of `v4` read by the rollapp migration (declared
in another file of the package) and the hash `crypto.Sha256`. -/
structure UpgradeConstants where
  nimRollappID : GoString
  mandeRollappID : GoString
  rollappXRollappID : GoString
  crynuxRollappID : GoString
  nimGenesisInfo : GenesisInfo
  mandeGenesisInfo : GenesisInfo
  rollappXGenesisInfo : GenesisInfo
  crynuxGenesisInfo : GenesisInfo
  nimAlias : GoString
  mandeAlias : GoString
  DefaultMinSequencerBondGlobalCoin : GoString × Nat
  Sha256 : GoString → GoString

/-- The slice expression `s[:n]` of Go: `none` is the run-time panic
"slice bounds out of range", raised when `n > len(s)`. -/
def slicePrefix (s : GoString) (n : Nat) : Option GoString :=
  if n ≤ s.length then some (s.take n) else none

/-- The function `ConvertOldRollappToNew`; `none` is a panic. -/
def ConvertOldRollappToNew (c : UpgradeConstants) (oldRollapp : Rollapp) : Option Rollapp :=
  match slicePrefix oldRollapp.RollappId 5 with
  | none => none
  | some bech32Prefix =>
    let genesisInfo : GenesisInfo :=
      { Bech32Prefix := bech32Prefix
        GenesisChecksum := c.Sha256 oldRollapp.RollappId
        NativeDenom := { Display := str "DEN", Base := str "aden", Exponent := 18 }
        InitialSupply := 100000
        Sealed := true }
    let genesisInfo := if oldRollapp.RollappId = c.nimRollappID then c.nimGenesisInfo else genesisInfo
    let genesisInfo :=
      if oldRollapp.RollappId = c.mandeRollappID then c.mandeGenesisInfo else genesisInfo
    let genesisInfo :=
      if oldRollapp.RollappId = c.rollappXRollappID then c.rollappXGenesisInfo else genesisInfo
    let genesisInfo :=
      if oldRollapp.RollappId = c.crynuxRollappID then c.crynuxGenesisInfo else genesisInfo
    let genesisState : RollappGenesisState :=
      { oldRollapp.GenesisState with TransferProofHeight := 813701 }
    some
      { RollappId := oldRollapp.RollappId
        Owner := oldRollapp.Owner
        GenesisState := genesisState
        ChannelId := oldRollapp.ChannelId
        Metadata := some
          { Website := [], Description := [], LogoUrl := [], Telegram := [], X := [],
            GenesisUrl := [], DisplayName := [], Tagline := [], FeeDenom := none }
        GenesisInfo := genesisInfo
        InitialSequencer := str "*"
        MinSequencerBond := [c.DefaultMinSequencerBondGlobalCoin]
        VmType := Rollapp_VMType.Rollapp_EVM
        Launched := true
        PreLaunchTime := none
        LivenessEventHeight := 0
        LivenessCountdownStartHeight := 0
        Revisions := [{ Number := 0, StartHeight := 0 }] }

/-- The collaborators of `migrateRollapps` whose code is outside the sources:
`Rollapp.ValidateBasic` (`none` is `nil`) and
`dymnsKeeper.SetAliasForRollAppId` on the alias table of the name service. -/
structure RollappCollaborators where
  ValidateBasic : Rollapp → Option GoString
  SetAliasForRollAppId :
    List (GoString × GoString) → GoString → GoString → Except GoString (List (GoString × GoString))

/-- The keepers written by `migrateRollapps`: the rollapp store and the alias
table of the name service. -/
structure RollappKeepers where
  rollapps : List Rollapp
  aliases : List (GoString × GoString)
deriving DecidableEq, Repr

/-- The write `rollappkeeper.SetRollapp(ctx, rollapp)`: the store is keyed by `RollappId`. -/
def SetRollapp : List Rollapp → Rollapp → List Rollapp
  | [], r => [r]
  | r' :: rs, r => if r'.RollappId = r.RollappId then r :: rs else r' :: SetRollapp rs r

/-- How a Go function call ends: by a panic, or by returning with the state it
leaves and its error (`none` is `nil`). -/
inductive Outcome (σ : Type) where
  | panicked : Outcome σ
  | returned : σ → Option GoString → Outcome σ
deriving DecidableEq, Repr

/-- The loop of `migrateRollapps` over the list read from the store. -/
def migrateRollappsLoop (c : UpgradeConstants) (co : RollappCollaborators) :
    List Rollapp → RollappKeepers → Outcome RollappKeepers
  | [], k => Outcome.returned k none
  | oldRollapp :: rest, k =>
    match ConvertOldRollappToNew c oldRollapp with
    | none => Outcome.panicked
    | some newRollapp =>
      match co.ValidateBasic newRollapp with
      | some err => Outcome.returned k (some err)
      | none =>
        let k := { k with rollapps := SetRollapp k.rollapps newRollapp }
        if oldRollapp.RollappId = c.nimRollappID then
          match co.SetAliasForRollAppId k.aliases oldRollapp.RollappId c.nimAlias with
          | Except.error err => Outcome.returned k (some err)
          | Except.ok aliases => migrateRollappsLoop c co rest { k with aliases := aliases }
        else if oldRollapp.RollappId = c.mandeRollappID then
          match co.SetAliasForRollAppId k.aliases oldRollapp.RollappId c.mandeAlias with
          | Except.error err => Outcome.returned k (some err)
          | Except.ok aliases => migrateRollappsLoop c co rest { k with aliases := aliases }
        else
          migrateRollappsLoop c co rest k

/-- The function `migrateRollapps`: the loop runs over `GetAllRollapps`. -/
def migrateRollapps (c : UpgradeConstants) (co : RollappCollaborators) (k : RollappKeepers) :
    Outcome RollappKeepers :=
  migrateRollappsLoop c co k.rollapps k

/-- Constants for the examples. -/
def sampleConstants : UpgradeConstants where
  nimRollappID := str "nim_1122-1"
  mandeRollappID := str "mande_18071918-1"
  rollappXRollappID := str "rollappx_700000-1"
  crynuxRollappID := str "crynux_10000-1"
  nimGenesisInfo := ⟨str "nim", str "n", ⟨str "NIM", str "anim", 18⟩, 1, true⟩
  mandeGenesisInfo := ⟨str "mande", str "m", ⟨str "MAND", str "amand", 18⟩, 1, true⟩
  rollappXGenesisInfo := ⟨str "rolx", str "x", ⟨str "ROLX", str "arolx", 18⟩, 1, true⟩
  crynuxGenesisInfo := ⟨str "crynux", str "c", ⟨str "CNX", str "acnx", 18⟩, 1, true⟩
  nimAlias := str "nim"
  mandeAlias := str "mande"
  DefaultMinSequencerBondGlobalCoin := (str "adym", 100)
  Sha256 := fun s => s.reverse

/-- Collaborators for the examples: every rollapp validates, every alias is set. -/
def sampleCollaborators : RollappCollaborators where
  ValidateBasic := fun _ => none
  SetAliasForRollAppId := fun aliases rollappId alias_ => Except.ok (aliases ++ [(rollappId, alias_)])

/-- A rollapp of the old format for the examples. -/
def sampleRollapp (rollappId channelId : GoString) : Rollapp :=
  { RollappId := rollappId, Owner := str "owner", GenesisState := ⟨0⟩, ChannelId := channelId,
    Metadata := none, GenesisInfo := ⟨[], [], ⟨[], [], 0⟩, 0, false⟩, InitialSequencer := [],
    MinSequencerBond := [], VmType := Rollapp_VMType.Rollapp_Unspecified, Launched := false,
    PreLaunchTime := none, LivenessEventHeight := 0, LivenessCountdownStartHeight := 0,
    Revisions := [] }

/-- A channel table for the examples: `channel-0` belongs to a connection of
client `07-tendermint-0`, no other channel is known. -/
def sampleGetChannelConnection (port channel : GoString) : Option (GoString × ConnectionEnd) :=
  if port = str "transfer" ∧ channel = str "channel-0" then
    some (str "connection-0", ⟨str "07-tendermint-0"⟩)
  else none

/-- A keeper for the examples: two pending packets (received, acknowledged),
one finalized packet, an empty by-address index. -/
def sampleKeeper : DelayedAckKeeper :=
  { rollappPackets :=
      [samplePacket 1 Status_PENDING RollappPacket_ON_RECV,
       samplePacket 2 Status_PENDING RollappPacket_ON_ACK,
       samplePacket 3 Status_FINALIZED RollappPacket_ON_TIMEOUT]
    pendingPacketsByAddress := [] }

/-- A keeper for the examples: one pending packet of the direction `-1`, which
is none of `ON_RECV`, `ON_ACK`, `ON_TIMEOUT`. -/
def undefinedTypeKeeper : DelayedAckKeeper :=
  { rollappPackets := [samplePacket 1 Status_PENDING (-1)]
    pendingPacketsByAddress := [] }

/-- A keeper for the examples: one finalized received packet. -/
def finalizedKeeper : DelayedAckKeeper :=
  { rollappPackets := [samplePacket 1 Status_FINALIZED RollappPacket_ON_RECV]
    pendingPacketsByAddress := [] }

/-- A rollapp store for the examples: `rollapp_a` with the canonical channel
`channel-0`, `rollapp_b` without a channel. -/
def sampleRollapps : List Rollapp :=
  [sampleRollapp (str "rollapp_a") (str "channel-0"), sampleRollapp (str "rollapp_b") []]

/-- A rollapp store for the examples: as `sampleRollapps`, followed by
`rollapp_c` on the unknown channel `channel-7` and `rollapp_d` on `channel-0`. -/
def sampleRollappsUnknownChannel : List Rollapp :=
  sampleRollapps ++ sampleRollapp (str "rollapp_c") (str "channel-7") ::
    [sampleRollapp (str "rollapp_d") (str "channel-0")]

/-- A queue of the old format for the examples: indices of the rollapps `b`, `a`, `b`,
the queue's own `RollappId` empty. -/
def sampleQueue : BlockHeightToFinalizationQueue :=
  { CreationHeight := 100
    FinalizationQueue := [⟨str "b", 1⟩, ⟨str "a", 1⟩, ⟨str "b", 2⟩]
    RollappId := [] }

/-! ## Byte-wise order on strings -/

theorem strLt_irrefl (a : GoString) : strLt a a = false := by
  induction a with
  | nil => rfl
  | cons x xs ih => simp [strLt, ih]

theorem strLt_trans : ∀ a b c : GoString, strLt a b = true → strLt b c = true → strLt a c = true
  | [], [], _, h, _ => by simp [strLt] at h
  | [], _ :: _, [], _, h => by simp [strLt] at h
  | [], _ :: _, _ :: _, _, _ => by simp [strLt]
  | _ :: _, [], _, h, _ => by simp [strLt] at h
  | _ :: _, _ :: _, [], _, h => by simp [strLt] at h
  | x :: xs, y :: ys, z :: zs, hab, hbc => by
    simp only [strLt] at hab hbc ⊢
    by_cases hxy : x < y
    · by_cases hyz : y < z
      · simp [lt_trans hxy hyz]
      · by_cases hzy : z < y
        · simp [hyz, hzy] at hbc
        · have : y = z := le_antisymm (not_lt.mp hzy) (not_lt.mp hyz)
          subst this
          simp [hxy]
    · by_cases hyx : y < x
      · simp [hxy, hyx] at hab
      · have hxy' : x = y := le_antisymm (not_lt.mp hyx) (not_lt.mp hxy)
        subst hxy'
        simp only [lt_irrefl, if_false] at hab
        by_cases hxz : x < z
        · simp [hxz]
        · by_cases hzx : z < x
          · simp [hxz, hzx] at hbc
          · simp only [hxz, hzx, if_false] at hbc ⊢
            exact strLt_trans xs ys zs hab hbc

theorem strLt_total : ∀ a b : GoString, a ≠ b → strLt a b = false → strLt b a = true
  | [], [], h, _ => absurd rfl h
  | [], _ :: _, _, h => by simp [strLt] at h
  | _ :: _, [], _, _ => by simp [strLt]
  | x :: xs, y :: ys, hne, h => by
    simp only [strLt] at h ⊢
    by_cases hxy : x < y
    · simp [hxy] at h
    · by_cases hyx : y < x
      · simp [hyx]
      · have hxy' : x = y := le_antisymm (not_lt.mp hyx) (not_lt.mp hxy)
        subst hxy'
        simp only [lt_irrefl, if_false] at h ⊢
        exact strLt_total xs ys (fun e => hne (by rw [e])) h

theorem strLt_asymm (a b : GoString) (h : strLt a b = true) : strLt b a = false := by
  cases hba : strLt b a with
  | false => rfl
  | true =>
    have := strLt_trans a b a h hba
    rw [strLt_irrefl] at this
    exact absurd this (by decide)

/-- A pair that `slices.IsSortedFunc` accepts and whose keys differ is in strict order. -/
theorem strLt_of_compare_nonneg (a b : GoString) (hne : a ≠ b) (h : 0 ≤ strings_Compare b a) :
    strLt a b = true := by
  unfold strings_Compare at h
  rw [if_neg (fun e => hne e.symm)] at h
  cases hba : strLt b a with
  | false => exact strLt_total b a (fun e => hne e.symm) hba
  | true => simp [hba] at h

/-! ## The map of the grouping loop -/

theorem mapGet_mapSet (m : GoMap) (k k' : GoString) (v : List StateInfoIndex) :
    mapGet (mapSet m k v) k' = if k = k' then v else mapGet m k' := by
  induction m with
  | nil => simp [mapSet, mapGet]
  | cons e m ih =>
    obtain ⟨k0, v0⟩ := e
    by_cases h0 : k0 = k
    · subst h0
      by_cases h1 : k0 = k' <;> simp [mapSet, mapGet, h1]
    · by_cases h1 : k0 = k'
      · subst h1
        have : ¬ k = k0 := fun e => h0 e.symm
        simp [mapSet, mapGet, h0, this]
      · simp [mapSet, mapGet, h0, h1, ih]

theorem keys_mapSet (m : GoMap) (k : GoString) (v : List StateInfoIndex) :
    (mapSet m k v).map Prod.fst =
      if k ∈ m.map Prod.fst then m.map Prod.fst else m.map Prod.fst ++ [k] := by
  induction m with
  | nil => simp [mapSet]
  | cons e m ih =>
    obtain ⟨k0, v0⟩ := e
    by_cases h0 : k0 = k
    · subst h0
      simp [mapSet]
    · have h0' : ¬ k = k0 := fun e => h0 e.symm
      simp only [mapSet, if_neg h0, List.map_cons, ih, List.mem_cons, h0', false_or]
      split <;> simp

theorem values_mapSet_append (m : GoMap) (k : GoString) (x : StateInfoIndex) :
    ((mapSet m k (mapGet m k ++ [x])).map Prod.snd).flatten.Perm
      ((m.map Prod.snd).flatten ++ [x]) := by
  induction m with
  | nil => simp [mapSet, mapGet]
  | cons e m ih =>
    obtain ⟨k0, v0⟩ := e
    by_cases h0 : k0 = k
    · subst h0
      simp only [mapSet, mapGet, if_true, List.map_cons, List.flatten_cons, List.append_assoc]
      exact List.Perm.append_left v0 List.perm_append_comm
    · simp only [mapSet, mapGet, if_neg h0, List.map_cons, List.flatten_cons, List.append_assoc]
      exact List.Perm.append_left v0 ih

theorem mem_of_nodup_keys (m : GoMap) (hnd : (m.map Prod.fst).Nodup) (e : GoString × List StateInfoIndex)
    (he : e ∈ m) : e.2 = mapGet m e.1 := by
  induction m with
  | nil => simp at he
  | cons e0 m ih =>
    obtain ⟨k0, v0⟩ := e0
    simp only [List.map_cons, List.nodup_cons] at hnd
    rcases List.mem_cons.mp he with h | h
    · subst h
      simp [mapGet]
    · have hne : ¬ k0 = e.1 := by
        intro hk
        exact hnd.1 (hk ▸ List.mem_map_of_mem Prod.fst h)
      simp only [mapGet, if_neg hne]
      exact ih hnd.2 h

theorem groupIndexes_append (q : List StateInfoIndex) (x : StateInfoIndex) :
    groupIndexes (q ++ [x]) =
      mapSet (groupIndexes q) x.RollappId (mapGet (groupIndexes q) x.RollappId ++ [x]) := by
  simp [groupIndexes, List.foldl_append]

/-- The lookup in the grouped map: the indices of that rollapp, in queue order. -/
theorem mapGet_groupIndexes (q : List StateInfoIndex) (k : GoString) :
    mapGet (groupIndexes q) k = q.filter (fun x => x.RollappId = k) := by
  induction q using List.reverseRecOn with
  | nil => simp [groupIndexes, mapGet]
  | append_singleton q x ih =>
    rw [groupIndexes_append, mapGet_mapSet, List.filter_append]
    by_cases h : x.RollappId = k
    · subst h
      simp [ih]
    · simp [h, ih]

/-- The keys of the grouped map are the rollapp ids occurring in the queue. -/
theorem mem_keys_groupIndexes (q : List StateInfoIndex) (k : GoString) :
    k ∈ (groupIndexes q).map Prod.fst ↔ k ∈ q.map StateInfoIndex.RollappId := by
  induction q using List.reverseRecOn generalizing k with
  | nil => simp [groupIndexes]
  | append_singleton q x ih =>
    rw [groupIndexes_append, keys_mapSet]
    split
    · rename_i hx
      simp only [List.map_append, List.mem_append, List.map_cons, List.map_nil,
        List.mem_singleton, ih]
      constructor
      · exact Or.inl
      · rintro (h | h)
        · exact h
        · rw [h]; exact (ih x.RollappId).mp hx
    · simp [ih]

theorem nodup_keys_groupIndexes (q : List StateInfoIndex) :
    ((groupIndexes q).map Prod.fst).Nodup := by
  induction q using List.reverseRecOn with
  | nil => simp [groupIndexes]
  | append_singleton q x ih =>
    rw [groupIndexes_append, keys_mapSet]
    split
    · exact ih
    · rename_i hx
      exact List.Nodup.append ih (List.nodup_singleton _) (by simpa using hx)

theorem values_groupIndexes (q : List StateInfoIndex) :
    (((groupIndexes q).map Prod.snd).flatten).Perm q := by
  induction q using List.reverseRecOn with
  | nil => simp [groupIndexes]
  | append_singleton q x ih =>
    rw [groupIndexes_append]
    exact (values_mapSet_append _ _ _).trans (List.Perm.append_right [x] ih)

/-! ## The contracts of `range` and `slices.SortFunc` are met by the executable stand-ins -/

theorem compare_neg_iff (a b : GoString) : strings_Compare a b < 0 ↔ strLt a b = true := by
  unfold strings_Compare
  by_cases e : a = b
  · subst e
    simp [strLt_irrefl]
  · cases h : strLt a b <;> simp [e]

theorem compare_nonneg_iff (a b : GoString) : 0 ≤ strings_Compare b a ↔ strLt b a = false := by
  constructor
  · intro h
    cases hba : strLt b a with
    | false => rfl
    | true =>
      have := (compare_neg_iff b a).mpr hba
      omega
  · intro h
    by_contra hc
    have := (compare_neg_iff b a).mp (by omega)
    rw [h] at this
    exact absurd this (by decide)

theorem orderedInsertFunc_perm {α : Type} (cmp : α → α → Int) (a : α) (l : List α) :
    (orderedInsertFunc cmp a l).Perm (a :: l) := by
  induction l with
  | nil => simp [orderedInsertFunc]
  | cons b l ih =>
    simp only [orderedInsertFunc]
    split
    · exact List.Perm.refl _
    · exact (List.Perm.cons b ih).trans (List.Perm.swap a b l)

theorem slices_SortFunc_perm {α : Type} (cmp : α → α → Int) (l : List α) :
    (slices_SortFunc cmp l).Perm l := by
  induction l with
  | nil => simp [slices_SortFunc]
  | cons a l ih =>
    have h : slices_SortFunc cmp (a :: l) = orderedInsertFunc cmp a (slices_SortFunc cmp l) := rfl
    rw [h]
    exact (orderedInsertFunc_perm cmp a _).trans (List.Perm.cons a ih)

theorem orderedInsertFunc_sorted (a : BlockHeightToFinalizationQueue)
    (l : List BlockHeightToFinalizationQueue)
    (hl : l.Pairwise (fun x y => 0 ≤ compareRollappId y x)) :
    (orderedInsertFunc compareRollappId a l).Pairwise (fun x y => 0 ≤ compareRollappId y x) := by
  induction l with
  | nil => simp [orderedInsertFunc]
  | cons b l ih =>
    rw [List.pairwise_cons] at hl
    simp only [orderedInsertFunc]
    split
    · rename_i hab
      have hab' : strLt a.RollappId b.RollappId = true := (compare_neg_iff _ _).mp hab
      refine List.pairwise_cons.mpr ⟨?_, List.pairwise_cons.mpr hl⟩
      intro c hc
      refine (compare_nonneg_iff _ _).mpr ?_
      rcases List.mem_cons.mp hc with h | h
      · subst h
        exact strLt_asymm _ _ hab'
      · have hcb : strLt c.RollappId b.RollappId = false :=
          (compare_nonneg_iff _ _).mp (hl.1 c h)
        cases hca : strLt c.RollappId a.RollappId with
        | false => rfl
        | true =>
          rw [strLt_trans _ _ _ hca hab'] at hcb
          exact absurd hcb (by decide)
    · rename_i hab
      refine List.pairwise_cons.mpr ⟨?_, ih hl.2⟩
      intro c hc
      rcases List.mem_cons.mp ((orderedInsertFunc_perm compareRollappId a l).subset hc) with h | h
      · subst h
        exact not_lt.mp hab
      · exact hl.1 c h

theorem slices_SortFunc_contract :
    SortFuncContract compareRollappId (slices_SortFunc compareRollappId) := by
  intro l
  refine ⟨slices_SortFunc_perm _ l, ?_⟩
  induction l with
  | nil => simp [slices_SortFunc]
  | cons a l ih => exact orderedInsertFunc_sorted a _ ih

theorem mapRange_id : MapRangeContract id := fun m => List.Perm.refl m

theorem mapRange_reverse : MapRangeContract List.reverse := fun m => List.reverse_perm m

/-! ## `ReformatFinalizationQueue`: shape of the result -/

/-- The result is a rearrangement of the entries of the grouped map. -/
theorem reformat_perm
    (rangeOrder : GoMap → List (GoString × List StateInfoIndex))
    (sortFunc : List BlockHeightToFinalizationQueue → List BlockHeightToFinalizationQueue)
    (hr : MapRangeContract rangeOrder) (hs : SortFuncContract compareRollappId sortFunc)
    (queue : BlockHeightToFinalizationQueue) :
    (ReformatFinalizationQueueWith rangeOrder sortFunc queue).Perm
      (castToSlice queue.CreationHeight (groupIndexes queue.FinalizationQueue)) :=
  ((hs _).1).trans ((hr _).map _)

theorem castToSlice_rollappIds (h : Nat) (m : List (GoString × List StateInfoIndex)) :
    (castToSlice h m).map BlockHeightToFinalizationQueue.RollappId = m.map Prod.fst := by
  simp [castToSlice, Function.comp_def]

theorem castToSlice_queues (h : Nat) (m : List (GoString × List StateInfoIndex)) :
    (castToSlice h m).map BlockHeightToFinalizationQueue.FinalizationQueue = m.map Prod.snd := by
  simp [castToSlice, Function.comp_def]

/-- The rollapp ids of the result are pairwise different. -/
theorem reformat_nodup
    (rangeOrder : GoMap → List (GoString × List StateInfoIndex))
    (sortFunc : List BlockHeightToFinalizationQueue → List BlockHeightToFinalizationQueue)
    (hr : MapRangeContract rangeOrder) (hs : SortFuncContract compareRollappId sortFunc)
    (queue : BlockHeightToFinalizationQueue) :
    ((ReformatFinalizationQueueWith rangeOrder sortFunc queue).map
      BlockHeightToFinalizationQueue.RollappId).Nodup := by
  have hp := (reformat_perm rangeOrder sortFunc hr hs queue).map
    BlockHeightToFinalizationQueue.RollappId
  rw [castToSlice_rollappIds] at hp
  exact hp.nodup_iff.mpr (nodup_keys_groupIndexes _)

/-- The result is in strict byte-wise order of the rollapp ids. -/
theorem reformat_pairwise
    (rangeOrder : GoMap → List (GoString × List StateInfoIndex))
    (sortFunc : List BlockHeightToFinalizationQueue → List BlockHeightToFinalizationQueue)
    (hr : MapRangeContract rangeOrder) (hs : SortFuncContract compareRollappId sortFunc)
    (queue : BlockHeightToFinalizationQueue) :
    (ReformatFinalizationQueueWith rangeOrder sortFunc queue).Pairwise
      (fun a b => strLt a.RollappId b.RollappId = true) := by
  have hnd := List.pairwise_map.mp (reformat_nodup rangeOrder sortFunc hr hs queue)
  have hsorted := (hs (castToSlice queue.CreationHeight
    (rangeOrder (groupIndexes queue.FinalizationQueue)))).2
  exact (hnd.and hsorted).imp (fun h => strLt_of_compare_nonneg _ _ h.1 h.2)

/-- Every entry of the result is an entry of the grouped map. -/
theorem reformat_mem
    (rangeOrder : GoMap → List (GoString × List StateInfoIndex))
    (sortFunc : List BlockHeightToFinalizationQueue → List BlockHeightToFinalizationQueue)
    (hr : MapRangeContract rangeOrder) (hs : SortFuncContract compareRollappId sortFunc)
    (queue : BlockHeightToFinalizationQueue) (e : BlockHeightToFinalizationQueue)
    (he : e ∈ ReformatFinalizationQueueWith rangeOrder sortFunc queue) :
    e.CreationHeight = queue.CreationHeight ∧
      e.FinalizationQueue =
        queue.FinalizationQueue.filter (fun x => x.RollappId = e.RollappId) := by
  have hmem := (reformat_perm rangeOrder sortFunc hr hs queue).subset he
  simp only [castToSlice, List.mem_map] at hmem
  obtain ⟨kv, hkv, rfl⟩ := hmem
  refine ⟨rfl, ?_⟩
  have := mem_of_nodup_keys _ (nodup_keys_groupIndexes _) kv hkv
  simp only [this, mapGet_groupIndexes]

/-- Sorting the reversed slice is another routine that meets the contract. -/
theorem slices_SortFunc_reverse_contract :
    SortFuncContract compareRollappId (fun l => slices_SortFunc compareRollappId l.reverse) := by
  intro l
  exact ⟨((slices_SortFunc_contract l.reverse).1).trans (List.reverse_perm l),
    (slices_SortFunc_contract l.reverse).2⟩

theorem countP_key (m : GoMap) (k : GoString) (hnd : (m.map Prod.fst).Nodup)
    (hk : k ∈ m.map Prod.fst) : m.countP (fun kv => decide (kv.1 = k)) = 1 := by
  induction m with
  | nil => simp at hk
  | cons e m ih =>
    obtain ⟨k0, v0⟩ := e
    simp only [List.map_cons, List.nodup_cons] at hnd
    rw [List.countP_cons]
    by_cases h0 : k0 = k
    · subst h0
      have hz : m.countP (fun kv => decide (kv.1 = k0)) = 0 := by
        rw [List.countP_eq_zero]
        intro kv hkv
        simp only [decide_eq_true_eq]
        intro e
        exact hnd.1 (e ▸ List.mem_map_of_mem Prod.fst hkv)
      simp [hz]
    · have hk' : k ∈ m.map Prod.fst := by
        rcases List.mem_cons.mp hk with h | h
        · exact absurd h.symm h0
        · exact h
      simp [h0, ih hnd.2 hk']

/-- The number of entries of the grouped map that hold a given index of the queue. -/
theorem countP_groupIndexes (q : List StateInfoIndex) (x : StateInfoIndex) (hx : x ∈ q) :
    (groupIndexes q).countP (fun kv => decide (x ∈ kv.2)) = 1 := by
  have hcongr : (groupIndexes q).countP (fun kv => decide (x ∈ kv.2)) =
      (groupIndexes q).countP (fun kv => decide (kv.1 = x.RollappId)) := by
    apply List.countP_congr
    intro kv hkv
    have hv := mem_of_nodup_keys _ (nodup_keys_groupIndexes q) kv hkv
    rw [mapGet_groupIndexes] at hv
    simp only [hv, List.mem_filter, decide_eq_true_eq]
    constructor
    · intro h; exact h.2.symm
    · intro h; exact ⟨hx, h.symm⟩
  rw [hcongr]
  exact countP_key _ _ (nodup_keys_groupIndexes q)
    ((mem_keys_groupIndexes q _).mpr (List.mem_map_of_mem _ hx))

/-! ## Claims on `ReformatFinalizationQueue` -/

/-- The run with the map visited in insertion order, at the sample queue. -/
theorem ReformatFinalizationQueue_sampleQueue :
    ReformatFinalizationQueue sampleQueue =
      [⟨100, [⟨str "a", 1⟩], str "a"⟩, ⟨100, [⟨str "b", 1⟩, ⟨str "b", 2⟩], str "b"⟩] := by
  decide

/-- C1: for every input queue, every order of the map iteration and every sorting
routine that meets the contract of `slices.SortFunc`, the slice returned by
`ReformatFinalizationQueue` is strictly ascending by `RollappId` in the byte-wise
order of `strings.Compare`: for all positions `i < j` the id at `i` is below the
id at `j`; hence no two entries share a `RollappId`. -/
theorem ReformatFinalizationQueue_strictly_ascending
    (rangeOrder : GoMap → List (GoString × List StateInfoIndex))
    (sortFunc : List BlockHeightToFinalizationQueue → List BlockHeightToFinalizationQueue)
    (hr : MapRangeContract rangeOrder) (hs : SortFuncContract compareRollappId sortFunc)
    (queue : BlockHeightToFinalizationQueue) :
    (∀ (i j : Nat) (hi : i < (ReformatFinalizationQueueWith rangeOrder sortFunc queue).length)
        (hj : j < (ReformatFinalizationQueueWith rangeOrder sortFunc queue).length), i < j →
        strLt ((ReformatFinalizationQueueWith rangeOrder sortFunc queue)[i]).RollappId
            ((ReformatFinalizationQueueWith rangeOrder sortFunc queue)[j]).RollappId = true ∧
          strings_Compare ((ReformatFinalizationQueueWith rangeOrder sortFunc queue)[i]).RollappId
            ((ReformatFinalizationQueueWith rangeOrder sortFunc queue)[j]).RollappId = -1) ∧
      ((ReformatFinalizationQueueWith rangeOrder sortFunc queue).map
        BlockHeightToFinalizationQueue.RollappId).Nodup := by
  refine ⟨?_, reformat_nodup rangeOrder sortFunc hr hs queue⟩
  intro i j hi hj hij
  have hlt := List.pairwise_iff_getElem.mp (reformat_pairwise rangeOrder sortFunc hr hs queue)
    i j hi hj hij
  refine ⟨hlt, ?_⟩
  have hne : (ReformatFinalizationQueueWith rangeOrder sortFunc queue)[i].RollappId ≠
      (ReformatFinalizationQueueWith rangeOrder sortFunc queue)[j].RollappId := by
    intro e
    rw [e, strLt_irrefl] at hlt
    exact absurd hlt (by decide)
  simp [strings_Compare, hne, hlt]

/-- C1, at the sample queue with the map visited backwards. -/
theorem ReformatFinalizationQueue_strictly_ascending_witness :
    MapRangeContract List.reverse ∧
    SortFuncContract compareRollappId (slices_SortFunc compareRollappId) ∧
    ReformatFinalizationQueueWith List.reverse (slices_SortFunc compareRollappId) sampleQueue =
      [⟨100, [⟨str "a", 1⟩], str "a"⟩, ⟨100, [⟨str "b", 1⟩, ⟨str "b", 2⟩], str "b"⟩] ∧
    ((ReformatFinalizationQueueWith List.reverse (slices_SortFunc compareRollappId)
      sampleQueue).map BlockHeightToFinalizationQueue.RollappId).Nodup :=
  ⟨mapRange_reverse, slices_SortFunc_contract, by decide,
    (ReformatFinalizationQueue_strictly_ascending List.reverse
      (slices_SortFunc compareRollappId) mapRange_reverse slices_SortFunc_contract
      sampleQueue).2⟩

/-- C2: `ReformatFinalizationQueue` neither loses nor invents refs: the
concatenation of the `FinalizationQueue` fields of the returned entries is a
permutation of the input's `FinalizationQueue`, and every index of the input is
contained in exactly one returned entry. -/
theorem ReformatFinalizationQueue_preserves_refs
    (rangeOrder : GoMap → List (GoString × List StateInfoIndex))
    (sortFunc : List BlockHeightToFinalizationQueue → List BlockHeightToFinalizationQueue)
    (hr : MapRangeContract rangeOrder) (hs : SortFuncContract compareRollappId sortFunc)
    (queue : BlockHeightToFinalizationQueue) :
    (((ReformatFinalizationQueueWith rangeOrder sortFunc queue).map
        BlockHeightToFinalizationQueue.FinalizationQueue).flatten).Perm
        queue.FinalizationQueue ∧
      ∀ x ∈ queue.FinalizationQueue,
        ((ReformatFinalizationQueueWith rangeOrder sortFunc queue).filter
          (fun e => decide (x ∈ e.FinalizationQueue))).length = 1 := by
  have hp := reformat_perm rangeOrder sortFunc hr hs queue
  constructor
  · have h1 := (hp.map BlockHeightToFinalizationQueue.FinalizationQueue).flatten
    rw [castToSlice_queues] at h1
    exact h1.trans (values_groupIndexes _)
  · intro x hx
    rw [← List.countP_eq_length_filter, hp.countP_eq, castToSlice, List.countP_map]
    exact countP_groupIndexes _ x hx

/-- C2, at the sample queue with the map visited backwards. -/
theorem ReformatFinalizationQueue_preserves_refs_witness :
    MapRangeContract List.reverse ∧
    SortFuncContract compareRollappId (slices_SortFunc compareRollappId) ∧
    (((ReformatFinalizationQueueWith List.reverse (slices_SortFunc compareRollappId)
        sampleQueue).map BlockHeightToFinalizationQueue.FinalizationQueue).flatten).Perm
        sampleQueue.FinalizationQueue ∧
      ∀ x ∈ sampleQueue.FinalizationQueue,
        ((ReformatFinalizationQueueWith List.reverse (slices_SortFunc compareRollappId)
          sampleQueue).filter (fun e => decide (x ∈ e.FinalizationQueue))).length = 1 :=
  ⟨mapRange_reverse, slices_SortFunc_contract,
    ReformatFinalizationQueue_preserves_refs List.reverse (slices_SortFunc compareRollappId)
      mapRange_reverse slices_SortFunc_contract sampleQueue⟩

/-- C3: for every entry `e` returned by `ReformatFinalizationQueue`,
`e.FinalizationQueue` is exactly the sub-sequence of the input's
`FinalizationQueue` made of the indices whose `RollappId` is `e.RollappId`, in
input order; hence no entry mixes refs of two rollapps, whatever `RollappId` the
input queue carried. -/
theorem ReformatFinalizationQueue_groups_by_rollapp
    (rangeOrder : GoMap → List (GoString × List StateInfoIndex))
    (sortFunc : List BlockHeightToFinalizationQueue → List BlockHeightToFinalizationQueue)
    (hr : MapRangeContract rangeOrder) (hs : SortFuncContract compareRollappId sortFunc)
    (queue : BlockHeightToFinalizationQueue) (e : BlockHeightToFinalizationQueue)
    (he : e ∈ ReformatFinalizationQueueWith rangeOrder sortFunc queue) :
    e.FinalizationQueue =
        queue.FinalizationQueue.filter (fun x => x.RollappId = e.RollappId) ∧
      e.FinalizationQueue.Sublist queue.FinalizationQueue ∧
      ∀ x ∈ e.FinalizationQueue, x.RollappId = e.RollappId := by
  have h := (reformat_mem rangeOrder sortFunc hr hs queue e he).2
  refine ⟨h, ?_, ?_⟩
  · rw [h]
    exact List.filter_sublist _
  · intro x hx
    rw [h] at hx
    simpa using (List.mem_filter.mp hx).2

/-- C3, at the sample queue (whose own `RollappId` is empty) and the entry of rollapp `b`. -/
theorem ReformatFinalizationQueue_groups_by_rollapp_witness :
    (⟨100, [⟨str "b", 1⟩, ⟨str "b", 2⟩], str "b"⟩ : BlockHeightToFinalizationQueue) ∈
        ReformatFinalizationQueueWith List.reverse (slices_SortFunc compareRollappId)
          sampleQueue ∧
      ([⟨str "b", 1⟩, ⟨str "b", 2⟩] : List StateInfoIndex) =
        sampleQueue.FinalizationQueue.filter (fun x => x.RollappId = str "b") :=
  ⟨by decide,
    (ReformatFinalizationQueue_groups_by_rollapp List.reverse
      (slices_SortFunc compareRollappId) mapRange_reverse slices_SortFunc_contract sampleQueue
      ⟨100, [⟨str "b", 1⟩, ⟨str "b", 2⟩], str "b"⟩ (by decide)).1⟩

/-- C4: the number of entries returned by `ReformatFinalizationQueue` is the
number of distinct `RollappId` values among the indices of the input's
`FinalizationQueue`; an input with an empty `FinalizationQueue` yields the empty
list. -/
theorem ReformatFinalizationQueue_length
    (rangeOrder : GoMap → List (GoString × List StateInfoIndex))
    (sortFunc : List BlockHeightToFinalizationQueue → List BlockHeightToFinalizationQueue)
    (hr : MapRangeContract rangeOrder) (hs : SortFuncContract compareRollappId sortFunc)
    (queue : BlockHeightToFinalizationQueue) :
    (ReformatFinalizationQueueWith rangeOrder sortFunc queue).length =
        (queue.FinalizationQueue.map StateInfoIndex.RollappId).toFinset.card ∧
      (queue.FinalizationQueue = [] →
        ReformatFinalizationQueueWith rangeOrder sortFunc queue = []) := by
  have hp := reformat_perm rangeOrder sortFunc hr hs queue
  have hlen : (ReformatFinalizationQueueWith rangeOrder sortFunc queue).length =
      (queue.FinalizationQueue.map StateInfoIndex.RollappId).toFinset.card := by
    rw [hp.length_eq, castToSlice, List.length_map,
      ← List.length_map (groupIndexes queue.FinalizationQueue) Prod.fst,
      ← List.toFinset_card_of_nodup (nodup_keys_groupIndexes _)]
    congr 1
    ext k
    simp only [List.mem_toFinset]
    exact mem_keys_groupIndexes _ k
  refine ⟨hlen, ?_⟩
  intro hq
  rw [hq] at hlen
  exact List.length_eq_zero.mp (by simpa using hlen)

/-- C4, at the sample queue: three indices of two rollapps give two entries. -/
theorem ReformatFinalizationQueue_length_witness :
    MapRangeContract List.reverse ∧
    SortFuncContract compareRollappId (slices_SortFunc compareRollappId) ∧
    (ReformatFinalizationQueueWith List.reverse (slices_SortFunc compareRollappId)
      sampleQueue).length = 2 ∧
    (ReformatFinalizationQueueWith List.reverse (slices_SortFunc compareRollappId)
      sampleQueue).length =
        (sampleQueue.FinalizationQueue.map StateInfoIndex.RollappId).toFinset.card :=
  ⟨mapRange_reverse, slices_SortFunc_contract, by decide,
    (ReformatFinalizationQueue_length List.reverse (slices_SortFunc compareRollappId)
      mapRange_reverse slices_SortFunc_contract sampleQueue).1⟩

/-- C5: the output of `ReformatFinalizationQueue` is deterministic: two runs on
the same input return equal slices, whatever the orders in which the map
`grouped` is iterated and whatever results the unstable `slices.SortFunc` picks. -/
theorem ReformatFinalizationQueue_deterministic
    (rangeOrder₁ rangeOrder₂ : GoMap → List (GoString × List StateInfoIndex))
    (sortFunc₁ sortFunc₂ :
      List BlockHeightToFinalizationQueue → List BlockHeightToFinalizationQueue)
    (hr₁ : MapRangeContract rangeOrder₁) (hr₂ : MapRangeContract rangeOrder₂)
    (hs₁ : SortFuncContract compareRollappId sortFunc₁)
    (hs₂ : SortFuncContract compareRollappId sortFunc₂)
    (queue : BlockHeightToFinalizationQueue) :
    ReformatFinalizationQueueWith rangeOrder₁ sortFunc₁ queue =
      ReformatFinalizationQueueWith rangeOrder₂ sortFunc₂ queue := by
  have hp := (reformat_perm rangeOrder₁ sortFunc₁ hr₁ hs₁ queue).trans
    (reformat_perm rangeOrder₂ sortFunc₂ hr₂ hs₂ queue).symm
  refine List.Perm.eq_of_sorted ?_ (reformat_pairwise rangeOrder₁ sortFunc₁ hr₁ hs₁ queue)
    (reformat_pairwise rangeOrder₂ sortFunc₂ hr₂ hs₂ queue) hp
  intro a b _ _ hab hba
  rw [strLt_asymm _ _ hab] at hba
  exact absurd hba (by decide)

/-- C5, at the sample queue: the map visited forwards or backwards, the slice
sorted as it comes or reversed first. -/
theorem ReformatFinalizationQueue_deterministic_witness :
    MapRangeContract id ∧ MapRangeContract List.reverse ∧
    SortFuncContract compareRollappId (slices_SortFunc compareRollappId) ∧
    SortFuncContract compareRollappId (fun l => slices_SortFunc compareRollappId l.reverse) ∧
    ReformatFinalizationQueueWith id (slices_SortFunc compareRollappId) sampleQueue =
      ReformatFinalizationQueueWith List.reverse
        (fun l => slices_SortFunc compareRollappId l.reverse) sampleQueue :=
  ⟨mapRange_id, mapRange_reverse, slices_SortFunc_contract, slices_SortFunc_reverse_contract,
    ReformatFinalizationQueue_deterministic id List.reverse (slices_SortFunc compareRollappId)
      (fun l => slices_SortFunc compareRollappId l.reverse) mapRange_id mapRange_reverse
      slices_SortFunc_contract slices_SortFunc_reverse_contract sampleQueue⟩

/-! ## `migrateDelayedAckPacketIndex`: the loop -/

theorem mem_MustSetPendingPacketByAddress (dk : DelayedAckKeeper) (a k a' k' : GoString) :
    (a, k) ∈ (MustSetPendingPacketByAddress dk a' k').pendingPacketsByAddress ↔
      (a, k) ∈ dk.pendingPacketsByAddress ∨ (a, k) = (a', k') := by
  unfold MustSetPendingPacketByAddress
  split
  · rename_i h
    constructor
    · exact Or.inl
    · rintro (h1 | h1)
      · exact h1
      · rw [h1]; exact h
  · simp

theorem index_MustSetPendingPacketByAddress (dk : DelayedAckKeeper) (a k : GoString) :
    (MustSetPendingPacketByAddress dk a k).pendingPacketsByAddress =
      if (a, k) ∈ dk.pendingPacketsByAddress then dk.pendingPacketsByAddress
      else dk.pendingPacketsByAddress ++ [(a, k)] := by
  unfold MustSetPendingPacketByAddress
  split <;> rfl

/-- The loop returns `nil` exactly when every payload decodes. -/
theorem loop_error_none_iff (pm : PacketMethods) (ps : List RollappPacket)
    (dk : DelayedAckKeeper) :
    (migrateDelayedAckPacketLoop pm ps dk).2 = none ↔
      ∀ p ∈ ps, pm.GetTransferPacketData p ≠ none := by
  induction ps generalizing dk with
  | nil => simp [migrateDelayedAckPacketLoop]
  | cons p ps ih =>
    simp only [migrateDelayedAckPacketLoop, List.mem_cons, forall_eq_or_imp]
    cases hd : pm.GetTransferPacketData p with
    | none => simp
    | some pd =>
      simp only [ne_eq, reduceCtorEq, not_false_eq_true, true_and]
      split
      · exact ih _
      · split
        · exact ih _
        · exact ih _

/-- The entries of the index after the loop: the old ones and, for every packet,
its key under the address the policy names. -/
theorem loop_mem_index (pm : PacketMethods) (ps : List RollappPacket) (dk : DelayedAckKeeper)
    (hdec : ∀ p ∈ ps, pm.GetTransferPacketData p ≠ none) (a k : GoString) :
    (a, k) ∈ (migrateDelayedAckPacketLoop pm ps dk).1.pendingPacketsByAddress ↔
      (a, k) ∈ dk.pendingPacketsByAddress ∨
        ∃ p ∈ ps, policyCounterpartyAddress pm p = some a ∧ pm.RollappPacketKey p = k := by
  induction ps generalizing dk with
  | nil => simp [migrateDelayedAckPacketLoop]
  | cons p ps ih =>
    have hp := hdec p (List.mem_cons_self _ _)
    have hps : ∀ q ∈ ps, pm.GetTransferPacketData q ≠ none :=
      fun q hq => hdec q (List.mem_cons_of_mem _ hq)
    simp only [migrateDelayedAckPacketLoop, List.exists_mem_cons_iff, policyCounterpartyAddress]
    cases hd : pm.GetTransferPacketData p with
    | none => exact absurd hd hp
    | some pd =>
      simp only
      by_cases h1 : p.Type_ = RollappPacket_ON_RECV
      · simp only [h1, if_true]
        rw [ih _ hps, mem_MustSetPendingPacketByAddress]
        simp only [Prod.mk.injEq, Option.some.injEq]
        constructor
        · rintro ((h | ⟨h, h'⟩) | h)
          · exact Or.inl h
          · exact Or.inr (Or.inl ⟨h.symm, h'.symm⟩)
          · exact Or.inr (Or.inr h)
        · rintro (h | ⟨h, h'⟩ | h)
          · exact Or.inl (Or.inl h)
          · exact Or.inl (Or.inr ⟨h.symm, h'.symm⟩)
          · exact Or.inr h
      · by_cases h2 : p.Type_ = RollappPacket_ON_ACK ∨ p.Type_ = RollappPacket_ON_TIMEOUT
        · simp only [if_neg h1, if_pos h2]
          rw [ih _ hps, mem_MustSetPendingPacketByAddress]
          simp only [Prod.mk.injEq, Option.some.injEq]
          constructor
          · rintro ((h | ⟨h, h'⟩) | h)
            · exact Or.inl h
            · exact Or.inr (Or.inl ⟨h.symm, h'.symm⟩)
            · exact Or.inr (Or.inr h)
          · rintro (h | ⟨h, h'⟩ | h)
            · exact Or.inl (Or.inl h)
            · exact Or.inl (Or.inr ⟨h.symm, h'.symm⟩)
            · exact Or.inr h
        · simp only [if_neg h1, if_neg h2]
          rw [ih _ hps]
          simp [policyCounterpartyAddress]

/-- The loop never writes the packet store. -/
theorem loop_rollappPackets (pm : PacketMethods) (ps : List RollappPacket)
    (dk : DelayedAckKeeper) :
    (migrateDelayedAckPacketLoop pm ps dk).1.rollappPackets = dk.rollappPackets := by
  induction ps generalizing dk with
  | nil => simp [migrateDelayedAckPacketLoop]
  | cons p ps ih =>
    simp only [migrateDelayedAckPacketLoop]
    cases hd : pm.GetTransferPacketData p with
    | none => rfl
    | some pd =>
      simp only
      have hset : ∀ a k, (MustSetPendingPacketByAddress dk a k).rollappPackets =
          dk.rollappPackets := by
        intro a k
        unfold MustSetPendingPacketByAddress
        split <;> rfl
      split
      · rw [ih, hset]
      · split
        · rw [ih, hset]
        · rw [ih]

/-- The error and the index computed by the loop depend on the keeper through
its index only. -/
theorem loop_index_congr (pm : PacketMethods) (ps : List RollappPacket)
    (dk dk' : DelayedAckKeeper)
    (h : dk.pendingPacketsByAddress = dk'.pendingPacketsByAddress) :
    (migrateDelayedAckPacketLoop pm ps dk).2 = (migrateDelayedAckPacketLoop pm ps dk').2 ∧
      (migrateDelayedAckPacketLoop pm ps dk).1.pendingPacketsByAddress =
        (migrateDelayedAckPacketLoop pm ps dk').1.pendingPacketsByAddress := by
  induction ps generalizing dk dk' with
  | nil => simp [migrateDelayedAckPacketLoop, h]
  | cons p ps ih =>
    simp only [migrateDelayedAckPacketLoop]
    cases hd : pm.GetTransferPacketData p with
    | none => exact ⟨rfl, h⟩
    | some pd =>
      simp only
      have hset : ∀ a k, (MustSetPendingPacketByAddress dk a k).pendingPacketsByAddress =
          (MustSetPendingPacketByAddress dk' a k).pendingPacketsByAddress := by
        intro a k
        rw [index_MustSetPendingPacketByAddress, index_MustSetPendingPacketByAddress, h]
      split
      · exact ih _ _ (hset _ _)
      · split
        · exact ih _ _ (hset _ _)
        · exact ih _ _ h

/-- A decodable packet of an unhandled direction is passed over by the loop. -/
theorem loop_skip (pm : PacketMethods) (pre post : List RollappPacket) (p : RollappPacket)
    (dk : DelayedAckKeeper) (hd : pm.GetTransferPacketData p ≠ none)
    (h1 : p.Type_ ≠ RollappPacket_ON_RECV) (h2 : p.Type_ ≠ RollappPacket_ON_ACK)
    (h3 : p.Type_ ≠ RollappPacket_ON_TIMEOUT) :
    migrateDelayedAckPacketLoop pm (pre ++ p :: post) dk =
      migrateDelayedAckPacketLoop pm (pre ++ post) dk := by
  induction pre generalizing dk with
  | nil =>
    simp only [List.nil_append, migrateDelayedAckPacketLoop]
    cases hdp : pm.GetTransferPacketData p with
    | none => exact absurd hdp hd
    | some pd => simp [h1, h2, h3]
  | cons q pre ih =>
    simp only [List.cons_append, migrateDelayedAckPacketLoop]
    cases hdq : pm.GetTransferPacketData q with
    | none => rfl
    | some pd =>
      simp only
      split
      · exact ih _
      · split
        · exact ih _
        · exact ih _

theorem policyCounterpartyAddress_eq_some (pm : PacketMethods) (p : RollappPacket)
    (a : GoString) :
    policyCounterpartyAddress pm p = some a ↔
      ∃ pd, pm.GetTransferPacketData p = some pd ∧
        ((p.Type_ = RollappPacket_ON_RECV ∧ a = pd.Receiver) ∨
          ((p.Type_ = RollappPacket_ON_ACK ∨ p.Type_ = RollappPacket_ON_TIMEOUT) ∧
            a = pd.Sender)) := by
  unfold policyCounterpartyAddress
  have hne1 : RollappPacket_ON_ACK ≠ RollappPacket_ON_RECV := by decide
  have hne2 : RollappPacket_ON_TIMEOUT ≠ RollappPacket_ON_RECV := by decide
  cases hd : pm.GetTransferPacketData p with
  | none => simp
  | some pd =>
    simp only [Option.some.injEq, exists_eq_left']
    by_cases h1 : p.Type_ = RollappPacket_ON_RECV
    · simp [h1, hne1.symm, hne2.symm, eq_comm]
    · by_cases h2 : p.Type_ = RollappPacket_ON_ACK ∨ p.Type_ = RollappPacket_ON_TIMEOUT
      · simp [h1, h2, eq_comm]
      · simp [h1, h2]

/-! ## Claims on `migrateDelayedAckPacketIndex` -/

/-- C6: when the transfer payloads of all PENDING packets decode,
`migrateDelayedAckPacketIndex` returns nil and the pending-by-address index then
holds each packet's `RollappPacketKey` under the policy address: the payload's
`Receiver` for `ON_RECV`, the payload's `Sender` for `ON_ACK` and `ON_TIMEOUT`;
and every entry the run adds is such a pair, never one under the opposite party. -/
theorem migrateDelayedAckPacketIndex_policy_address (pm : PacketMethods)
    (dk : DelayedAckKeeper)
    (hdec : ∀ p ∈ ListRollappPacketsByStatus dk Status_PENDING,
      pm.GetTransferPacketData p ≠ none) :
    (migrateDelayedAckPacketIndex pm dk).2 = none ∧
      (∀ p ∈ ListRollappPacketsByStatus dk Status_PENDING,
        ∀ pd, pm.GetTransferPacketData p = some pd →
          (p.Type_ = RollappPacket_ON_RECV →
            (pd.Receiver, pm.RollappPacketKey p) ∈
              (migrateDelayedAckPacketIndex pm dk).1.pendingPacketsByAddress) ∧
          (p.Type_ = RollappPacket_ON_ACK ∨ p.Type_ = RollappPacket_ON_TIMEOUT →
            (pd.Sender, pm.RollappPacketKey p) ∈
              (migrateDelayedAckPacketIndex pm dk).1.pendingPacketsByAddress)) ∧
      (∀ a k, (a, k) ∈ (migrateDelayedAckPacketIndex pm dk).1.pendingPacketsByAddress →
        (a, k) ∈ dk.pendingPacketsByAddress ∨
          ∃ p ∈ ListRollappPacketsByStatus dk Status_PENDING,
            ∃ pd, pm.GetTransferPacketData p = some pd ∧ pm.RollappPacketKey p = k ∧
              ((p.Type_ = RollappPacket_ON_RECV ∧ a = pd.Receiver) ∨
                ((p.Type_ = RollappPacket_ON_ACK ∨ p.Type_ = RollappPacket_ON_TIMEOUT) ∧
                  a = pd.Sender))) := by
  refine ⟨(loop_error_none_iff pm _ dk).mpr hdec, ?_, ?_⟩
  · intro p hp pd hpd
    constructor
    · intro ht
      refine (loop_mem_index pm _ dk hdec _ _).mpr (Or.inr ⟨p, hp, ?_, rfl⟩)
      exact (policyCounterpartyAddress_eq_some pm p _).mpr ⟨pd, hpd, Or.inl ⟨ht, rfl⟩⟩
    · intro ht
      refine (loop_mem_index pm _ dk hdec _ _).mpr (Or.inr ⟨p, hp, ?_, rfl⟩)
      exact (policyCounterpartyAddress_eq_some pm p _).mpr ⟨pd, hpd, Or.inr ⟨ht, rfl⟩⟩
  · intro a k hak
    rcases (loop_mem_index pm _ dk hdec a k).mp hak with h | ⟨p, hp, hpol, hk⟩
    · exact Or.inl h
    · obtain ⟨pd, hpd, hcase⟩ := (policyCounterpartyAddress_eq_some pm p a).mp hpol
      exact Or.inr ⟨p, hp, pd, hpd, hk, hcase⟩

/-- C6, at the sample keeper: the received packet is indexed under the receiver
`R`, the acknowledged one under the sender `S`, the finalized one not at all. -/
theorem migrateDelayedAckPacketIndex_policy_address_witness :
    (∀ p ∈ ListRollappPacketsByStatus sampleKeeper Status_PENDING,
      samplePacketMethods.GetTransferPacketData p ≠ none) ∧
    (migrateDelayedAckPacketIndex samplePacketMethods sampleKeeper).2 = none ∧
    (migrateDelayedAckPacketIndex samplePacketMethods sampleKeeper).1.pendingPacketsByAddress =
      [(str "R", [0, 7, 0, 1]), (str "S", [0, 7, 1, 2])] :=
  ⟨by decide,
    (migrateDelayedAckPacketIndex_policy_address samplePacketMethods sampleKeeper
      (by decide)).1,
    by decide⟩

/-- C7, refuted: a pending packet of direction `-1` with a decodable payload
makes `migrateDelayedAckPacketIndex` return nil, and its key is in no entry of
the index. -/
theorem migrateDelayedAckPacketIndex_unhandled_type_no_error :
    samplePacket 1 Status_PENDING (-1) ∈
        ListRollappPacketsByStatus undefinedTypeKeeper Status_PENDING ∧
      (samplePacket 1 Status_PENDING (-1)).Type_ ≠ RollappPacket_ON_RECV ∧
      (samplePacket 1 Status_PENDING (-1)).Type_ ≠ RollappPacket_ON_ACK ∧
      (samplePacket 1 Status_PENDING (-1)).Type_ ≠ RollappPacket_ON_TIMEOUT ∧
      samplePacketMethods.GetTransferPacketData (samplePacket 1 Status_PENDING (-1)) =
        some ⟨str "S", str "R"⟩ ∧
      (migrateDelayedAckPacketIndex samplePacketMethods undefinedTypeKeeper).2 = none ∧
      (migrateDelayedAckPacketIndex samplePacketMethods
        undefinedTypeKeeper).1.pendingPacketsByAddress = [] := by
  decide

/-- C7, amended: a PENDING packet with a decodable payload whose direction is
none of `ON_RECV`, `ON_ACK`, `ON_TIMEOUT` is passed over silently.
`migrateDelayedAckPacketIndex` returns nil exactly when the payloads of all
pending packets decode, so no error is raised for the direction and nil is
returned when every pending payload decodes; it returns the same error value and
leaves the same by-address index as on the store without that packet; and when
it returns nil every entry of the index is an old one or the key of a pending
packet other than this one under that packet's policy address, so no key is
indexed on account of this packet. -/
theorem migrateDelayedAckPacketIndex_skips_unhandled_type (pm : PacketMethods)
    (pre post : List RollappPacket) (index : List (GoString × GoString)) (p : RollappPacket)
    (hs : p.Status = Status_PENDING) (hd : pm.GetTransferPacketData p ≠ none)
    (h1 : p.Type_ ≠ RollappPacket_ON_RECV) (h2 : p.Type_ ≠ RollappPacket_ON_ACK)
    (h3 : p.Type_ ≠ RollappPacket_ON_TIMEOUT) :
    ((migrateDelayedAckPacketIndex pm ⟨pre ++ p :: post, index⟩).2 = none ↔
        ∀ q ∈ ListRollappPacketsByStatus ⟨pre ++ p :: post, index⟩ Status_PENDING,
          pm.GetTransferPacketData q ≠ none) ∧
      (migrateDelayedAckPacketIndex pm ⟨pre ++ p :: post, index⟩).2 =
        (migrateDelayedAckPacketIndex pm ⟨pre ++ post, index⟩).2 ∧
      (migrateDelayedAckPacketIndex pm ⟨pre ++ p :: post, index⟩).1.pendingPacketsByAddress =
        (migrateDelayedAckPacketIndex pm ⟨pre ++ post, index⟩).1.pendingPacketsByAddress ∧
      ((migrateDelayedAckPacketIndex pm ⟨pre ++ p :: post, index⟩).2 = none →
        ∀ a k,
          (a, k) ∈ (migrateDelayedAckPacketIndex pm
              ⟨pre ++ p :: post, index⟩).1.pendingPacketsByAddress ↔
            (a, k) ∈ index ∨
              ∃ q ∈ pre ++ post, q.Status = Status_PENDING ∧
                policyCounterpartyAddress pm q = some a ∧ pm.RollappPacketKey q = k) := by
  have hf : (pre ++ p :: post).filter (fun q => q.Status = Status_PENDING) =
      pre.filter (fun q => q.Status = Status_PENDING) ++
        p :: post.filter (fun q => q.Status = Status_PENDING) := by
    simp [List.filter_append, List.filter_cons, hs]
  have hsame : (migrateDelayedAckPacketIndex pm ⟨pre ++ p :: post, index⟩).2 =
        (migrateDelayedAckPacketIndex pm ⟨pre ++ post, index⟩).2 ∧
      (migrateDelayedAckPacketIndex pm ⟨pre ++ p :: post, index⟩).1.pendingPacketsByAddress =
        (migrateDelayedAckPacketIndex pm ⟨pre ++ post, index⟩).1.pendingPacketsByAddress := by
    unfold migrateDelayedAckPacketIndex ListRollappPacketsByStatus
    simp only [hf, List.filter_append]
    rw [loop_skip pm _ _ p _ hd h1 h2 h3]
    exact loop_index_congr pm _ _ _ rfl
  refine ⟨loop_error_none_iff pm _ _, hsame.1, hsame.2, ?_⟩
  intro hok a k
  rw [hsame.1] at hok
  have hdec := (loop_error_none_iff pm _ _).mp hok
  rw [hsame.2]
  unfold migrateDelayedAckPacketIndex
  rw [loop_mem_index pm _ _ hdec a k]
  simp only [ListRollappPacketsByStatus, List.mem_filter, decide_eq_true_eq]
  constructor
  · rintro (h | ⟨q, ⟨hq, hqs⟩, h⟩)
    · exact Or.inl h
    · exact Or.inr ⟨q, hq, hqs, h⟩
  · rintro (h | ⟨q, hq, hqs, h⟩)
    · exact Or.inl h
    · exact Or.inr ⟨q, ⟨hq, hqs⟩, h⟩

/-- C7 amended, at a store where the packet of direction `-1` stands between the
two pending packets of the sample keeper: the run returns nil and the index is
the one of the run without that packet. -/
theorem migrateDelayedAckPacketIndex_skips_unhandled_type_witness :
    ((migrateDelayedAckPacketIndex samplePacketMethods
        ⟨[samplePacket 1 Status_PENDING RollappPacket_ON_RECV] ++
          samplePacket 9 Status_PENDING (-1) ::
            [samplePacket 2 Status_PENDING RollappPacket_ON_ACK], []⟩).2 = none ↔
        ∀ q ∈ ListRollappPacketsByStatus
            ⟨[samplePacket 1 Status_PENDING RollappPacket_ON_RECV] ++
              samplePacket 9 Status_PENDING (-1) ::
                [samplePacket 2 Status_PENDING RollappPacket_ON_ACK], []⟩ Status_PENDING,
          samplePacketMethods.GetTransferPacketData q ≠ none) ∧
      (migrateDelayedAckPacketIndex samplePacketMethods
        ⟨[samplePacket 1 Status_PENDING RollappPacket_ON_RECV] ++
          samplePacket 9 Status_PENDING (-1) ::
            [samplePacket 2 Status_PENDING RollappPacket_ON_ACK], []⟩).2 = none ∧
      (migrateDelayedAckPacketIndex samplePacketMethods
        ⟨[samplePacket 1 Status_PENDING RollappPacket_ON_RECV] ++
          samplePacket 9 Status_PENDING (-1) ::
            [samplePacket 2 Status_PENDING RollappPacket_ON_ACK], []⟩).1.pendingPacketsByAddress =
        [(str "R", [0, 7, 0, 1]), (str "S", [0, 7, 1, 2])] ∧
      (migrateDelayedAckPacketIndex samplePacketMethods
        ⟨[samplePacket 1 Status_PENDING RollappPacket_ON_RECV] ++
          samplePacket 9 Status_PENDING (-1) ::
            [samplePacket 2 Status_PENDING RollappPacket_ON_ACK], []⟩).1.pendingPacketsByAddress =
        (migrateDelayedAckPacketIndex samplePacketMethods
          ⟨[samplePacket 1 Status_PENDING RollappPacket_ON_RECV] ++
            [samplePacket 2 Status_PENDING RollappPacket_ON_ACK], []⟩).1.pendingPacketsByAddress :=
  ⟨(migrateDelayedAckPacketIndex_skips_unhandled_type samplePacketMethods
      [samplePacket 1 Status_PENDING RollappPacket_ON_RECV]
      [samplePacket 2 Status_PENDING RollappPacket_ON_ACK] []
      (samplePacket 9 Status_PENDING (-1)) (by decide) (by decide) (by decide) (by decide)
      (by decide)).1,
    by decide, by decide,
    (migrateDelayedAckPacketIndex_skips_unhandled_type samplePacketMethods
      [samplePacket 1 Status_PENDING RollappPacket_ON_RECV]
      [samplePacket 2 Status_PENDING RollappPacket_ON_ACK] []
      (samplePacket 9 Status_PENDING (-1)) (by decide) (by decide) (by decide) (by decide)
      (by decide)).2.2.1⟩

/-- C8, refuted: a stored FINALIZED packet of direction `ON_RECV` has the policy
address `R`, yet after a successful run from the empty index no key is indexed
under `R`. -/
theorem migrateDelayedAckPacketIndex_misses_finalized :
    samplePacket 1 Status_FINALIZED RollappPacket_ON_RECV ∈ finalizedKeeper.rollappPackets ∧
      finalizedKeeper.pendingPacketsByAddress = [] ∧
      policyCounterpartyAddress samplePacketMethods
        (samplePacket 1 Status_FINALIZED RollappPacket_ON_RECV) = some (str "R") ∧
      (migrateDelayedAckPacketIndex samplePacketMethods finalizedKeeper).2 = none ∧
      (str "R", samplePacketMethods.RollappPacketKey
          (samplePacket 1 Status_FINALIZED RollappPacket_ON_RECV)) ∉
        (migrateDelayedAckPacketIndex samplePacketMethods
          finalizedKeeper).1.pendingPacketsByAddress := by
  decide

/-- C8, amended: starting from an empty index, after a successful run of
`migrateDelayedAckPacketIndex` the keys indexed under an address `a` are exactly
the keys of the stored PENDING packets whose policy-derived counterparty address
is `a`; FINALIZED and REVERTED packets are not indexed. -/
theorem migrateDelayedAckPacketIndex_indexes_pending_only (pm : PacketMethods)
    (dk : DelayedAckKeeper) (hempty : dk.pendingPacketsByAddress = [])
    (hok : (migrateDelayedAckPacketIndex pm dk).2 = none) (a k : GoString) :
    (a, k) ∈ (migrateDelayedAckPacketIndex pm dk).1.pendingPacketsByAddress ↔
      ∃ p ∈ dk.rollappPackets, p.Status = Status_PENDING ∧
        policyCounterpartyAddress pm p = some a ∧ pm.RollappPacketKey p = k := by
  have hdec := (loop_error_none_iff pm _ dk).mp hok
  unfold migrateDelayedAckPacketIndex
  rw [loop_mem_index pm _ dk hdec a k, hempty]
  simp only [List.not_mem_nil, false_or, ListRollappPacketsByStatus, List.mem_filter,
    decide_eq_true_eq]
  constructor
  · rintro ⟨p, ⟨hp, hs⟩, h⟩
    exact ⟨p, hp, hs, h⟩
  · rintro ⟨p, hp, hs, h⟩
    exact ⟨p, ⟨hp, hs⟩, h⟩

/-- C8 amended, at the sample keeper: under `R` exactly the key of the pending
received packet is indexed. -/
theorem migrateDelayedAckPacketIndex_indexes_pending_only_witness :
    sampleKeeper.pendingPacketsByAddress = [] ∧
      (migrateDelayedAckPacketIndex samplePacketMethods sampleKeeper).2 = none ∧
      ((str "R", [0, 7, 0, 1]) ∈
          (migrateDelayedAckPacketIndex samplePacketMethods sampleKeeper).1.pendingPacketsByAddress ↔
        ∃ p ∈ sampleKeeper.rollappPackets, p.Status = Status_PENDING ∧
          policyCounterpartyAddress samplePacketMethods p = some (str "R") ∧
          samplePacketMethods.RollappPacketKey p = [0, 7, 0, 1]) :=
  ⟨rfl, by decide,
    migrateDelayedAckPacketIndex_indexes_pending_only samplePacketMethods sampleKeeper rfl
      (by decide) (str "R") [0, 7, 0, 1]⟩

/-! ## `migrateRollappLightClients` -/

theorem GetCanonicalClient_append (lk : LightClientKeeper) (r c r' : GoString) :
    GetCanonicalClient (lk ++ [(r, c)]) r' =
      match GetCanonicalClient lk r' with
      | some bound => some bound
      | none => if r = r' then some c else none := by
  induction lk with
  | nil => simp [GetCanonicalClient]
  | cons e lk ih =>
    obtain ⟨r0, c0⟩ := e
    by_cases h0 : r0 = r'
    · simp [GetCanonicalClient, h0]
    · simp [GetCanonicalClient, h0, ih]

/-- A bind of one rollapp leaves the binding of every other rollapp as it was. -/
theorem GetCanonicalClient_SetCanonicalClient_other (lk : LightClientKeeper)
    (r c r' : GoString) (h : r ≠ r') :
    GetCanonicalClient (SetCanonicalClient lk r c) r' = GetCanonicalClient lk r' := by
  unfold SetCanonicalClient Bind
  cases hg : GetCanonicalClient lk r with
  | none =>
    simp only [GetCanonicalClient_append, if_neg h]
    cases GetCanonicalClient lk r' <;> rfl
  | some bound =>
    by_cases hb : bound = c <;> simp [hb]

/-- A bind of a rollapp that is unbound, or bound to the same client, succeeds. -/
theorem GetCanonicalClient_SetCanonicalClient_free (lk : LightClientKeeper)
    (r c : GoString)
    (h : GetCanonicalClient lk r = none ∨ GetCanonicalClient lk r = some c) :
    GetCanonicalClient (SetCanonicalClient lk r c) r = some c := by
  unfold SetCanonicalClient Bind
  rcases h with h | h
  · simp [h, GetCanonicalClient_append]
  · simp [h]

theorem migrateRollappLightClients_cons
    (gcc : GoString → GoString → Option (GoString × ConnectionEnd))
    (x : Rollapp) (rest : List Rollapp) (lk : LightClientKeeper) :
    migrateRollappLightClients gcc (x :: rest) lk =
      if x.ChannelId = [] then migrateRollappLightClients gcc rest lk
      else
        match gcc PortID x.ChannelId with
        | none => (lk, some (str "could not find a connection for channel"))
        | some (_, connection) =>
          migrateRollappLightClients gcc rest
            (SetCanonicalClient lk x.RollappId connection.ClientId) := by
  simp only [migrateRollappLightClients]

/-- The binding of a rollapp id that no rollapp with a channel carries is not written. -/
theorem lightClients_untouched
    (gcc : GoString → GoString → Option (GoString × ConnectionEnd))
    (list : List Rollapp) (lk : LightClientKeeper) (id : GoString)
    (h : ∀ r ∈ list, r.ChannelId ≠ [] → r.RollappId ≠ id) :
    GetCanonicalClient (migrateRollappLightClients gcc list lk).1 id =
      GetCanonicalClient lk id := by
  induction list generalizing lk with
  | nil => rfl
  | cons x rest ih =>
    have hrest : ∀ r ∈ rest, r.ChannelId ≠ [] → r.RollappId ≠ id :=
      fun r hr => h r (List.mem_cons_of_mem _ hr)
    rw [migrateRollappLightClients_cons]
    by_cases hc : x.ChannelId = []
    · rw [if_pos hc]
      exact ih lk hrest
    · rw [if_neg hc]
      cases hg : gcc PortID x.ChannelId with
      | none => rfl
      | some conn =>
        obtain ⟨cid, connection⟩ := conn
        simp only
        rw [ih _ hrest, GetCanonicalClient_SetCanonicalClient_other _ _ _ _
          (h x (List.mem_cons_self _ _) hc)]

/-- A run that returns nil found a connection for every rollapp with a channel. -/
theorem lightClients_lookup
    (gcc : GoString → GoString → Option (GoString × ConnectionEnd))
    (list : List Rollapp) (lk : LightClientKeeper)
    (hok : (migrateRollappLightClients gcc list lk).2 = none)
    (r : Rollapp) (hr : r ∈ list) (hc : r.ChannelId ≠ []) :
    ∃ conn, gcc PortID r.ChannelId = some conn := by
  induction list generalizing lk with
  | nil => simp at hr
  | cons x rest ih =>
    rw [migrateRollappLightClients_cons] at hok
    by_cases hx : x.ChannelId = []
    · rw [if_pos hx] at hok
      rcases List.mem_cons.mp hr with h | h
      · subst h
        exact absurd hx hc
      · exact ih lk hok h
    · rw [if_neg hx] at hok
      cases hg : gcc PortID x.ChannelId with
      | none => simp [hg] at hok
      | some conn =>
        obtain ⟨cid, connection⟩ := conn
        simp only [hg] at hok
        rcases List.mem_cons.mp hr with h | h
        · subst h
          exact ⟨(cid, connection), hg⟩
        · exact ih _ hok h

/-- After a run that returns nil, a rollapp with a channel that was not bound
to another client is bound to the client of the connection of that channel. -/
theorem lightClients_bound
    (gcc : GoString → GoString → Option (GoString × ConnectionEnd))
    (list : List Rollapp) (lk : LightClientKeeper)
    (hnd : (list.map Rollapp.RollappId).Nodup)
    (hok : (migrateRollappLightClients gcc list lk).2 = none)
    (r : Rollapp) (hr : r ∈ list) (hc : r.ChannelId ≠ [])
    (conn : GoString × ConnectionEnd) (hconn : gcc PortID r.ChannelId = some conn)
    (hfree : GetCanonicalClient lk r.RollappId = none ∨
      GetCanonicalClient lk r.RollappId = some conn.2.ClientId) :
    GetCanonicalClient (migrateRollappLightClients gcc list lk).1 r.RollappId =
      some conn.2.ClientId := by
  induction list generalizing lk with
  | nil => simp at hr
  | cons x rest ih =>
    simp only [List.map_cons, List.nodup_cons] at hnd
    rw [migrateRollappLightClients_cons] at hok ⊢
    by_cases hx : x.ChannelId = []
    · rw [if_pos hx] at hok ⊢
      rcases List.mem_cons.mp hr with h | h
      · subst h
        exact absurd hx hc
      · exact ih lk hnd.2 hok h hfree
    · rw [if_neg hx] at hok ⊢
      cases hg : gcc PortID x.ChannelId with
      | none => simp [hg] at hok
      | some connx =>
        obtain ⟨cid, connection⟩ := connx
        simp only [hg] at hok ⊢
        rcases List.mem_cons.mp hr with h | h
        · subst h
          rw [hg] at hconn
          cases hconn
          rw [lightClients_untouched gcc rest _ r.RollappId]
          · exact GetCanonicalClient_SetCanonicalClient_free lk _ _ hfree
          · intro r' hr' _ e
            exact hnd.1 (e ▸ List.mem_map_of_mem _ hr')
        · have hne : x.RollappId ≠ r.RollappId := by
            intro e
            exact hnd.1 (e ▸ List.mem_map_of_mem _ h)
          refine ih _ hnd.2 hok h ?_
          rw [GetCanonicalClient_SetCanonicalClient_other _ _ _ _ hne]
          exact hfree

/-- The run over a list whose channel lookups all succeed returns nil. -/
theorem lightClients_ok
    (gcc : GoString → GoString → Option (GoString × ConnectionEnd))
    (list : List Rollapp) (lk : LightClientKeeper)
    (h : ∀ p ∈ list, p.ChannelId ≠ [] → gcc PortID p.ChannelId ≠ none) :
    (migrateRollappLightClients gcc list lk).2 = none := by
  induction list generalizing lk with
  | nil => rfl
  | cons x rest ih =>
    have hrest : ∀ p ∈ rest, p.ChannelId ≠ [] → gcc PortID p.ChannelId ≠ none :=
      fun p hp => h p (List.mem_cons_of_mem _ hp)
    rw [migrateRollappLightClients_cons]
    by_cases hx : x.ChannelId = []
    · rw [if_pos hx]
      exact ih lk hrest
    · rw [if_neg hx]
      cases hg : gcc PortID x.ChannelId with
      | none => exact absurd hg (h x (List.mem_cons_self _ _) hx)
      | some conn =>
        obtain ⟨cid, connection⟩ := conn
        exact ih _ hrest

/-- A run that returns nil made exactly the calls of `canonicalBindings`, in order. -/
theorem lightClients_calls
    (gcc : GoString → GoString → Option (GoString × ConnectionEnd))
    (list : List Rollapp) (lk : LightClientKeeper)
    (hok : (migrateRollappLightClients gcc list lk).2 = none) :
    (migrateRollappLightClients gcc list lk).1 =
      setCanonicalClients lk (canonicalBindings gcc list) := by
  induction list generalizing lk with
  | nil => rfl
  | cons x rest ih =>
    rw [migrateRollappLightClients_cons] at hok ⊢
    by_cases hx : x.ChannelId = []
    · rw [if_pos hx] at hok ⊢
      rw [ih lk hok]
      simp [canonicalBindings, List.filterMap_cons, hx]
    · rw [if_neg hx] at hok ⊢
      cases hg : gcc PortID x.ChannelId with
      | none => simp [hg] at hok
      | some conn =>
        obtain ⟨cid, connection⟩ := conn
        simp only [hg] at hok ⊢
        rw [ih _ hok]
        simp [canonicalBindings, setCanonicalClients, List.filterMap_cons, hx, hg]

/-- The run stops at the first rollapp whose channel lookup fails. -/
theorem lightClients_stop
    (gcc : GoString → GoString → Option (GoString × ConnectionEnd))
    (pre post : List Rollapp) (r : Rollapp) (lk : LightClientKeeper)
    (hc : r.ChannelId ≠ []) (hg : gcc PortID r.ChannelId = none)
    (hpre : ∀ p ∈ pre, p.ChannelId ≠ [] → gcc PortID p.ChannelId ≠ none) :
    (migrateRollappLightClients gcc (pre ++ r :: post) lk).2 ≠ none ∧
      (migrateRollappLightClients gcc (pre ++ r :: post) lk).1 =
        (migrateRollappLightClients gcc pre lk).1 := by
  induction pre generalizing lk with
  | nil => simp [migrateRollappLightClients, hc, hg]
  | cons x rest ih =>
    have hrest : ∀ p ∈ rest, p.ChannelId ≠ [] → gcc PortID p.ChannelId ≠ none :=
      fun p hp => hpre p (List.mem_cons_of_mem _ hp)
    rw [List.cons_append, migrateRollappLightClients_cons, migrateRollappLightClients_cons]
    by_cases hx : x.ChannelId = []
    · rw [if_pos hx, if_pos hx]
      exact ih lk hrest
    · rw [if_neg hx, if_neg hx]
      cases hgx : gcc PortID x.ChannelId with
      | none => exact absurd hgx (hpre x (List.mem_cons_self _ _) hx)
      | some conn =>
        obtain ⟨cid, connection⟩ := conn
        exact ih _ hrest

/-- The bindings to make for a rollapp id: the clients of the connections of
the rollapps with a channel that carry this id. -/
theorem mem_canonicalBindings
    (gcc : GoString → GoString → Option (GoString × ConnectionEnd))
    (list : List Rollapp) (id c : GoString) :
    (id, c) ∈ canonicalBindings gcc list ↔
      ∃ r ∈ list, r.ChannelId ≠ [] ∧
        ∃ conn, gcc PortID r.ChannelId = some conn ∧ r.RollappId = id ∧
          conn.2.ClientId = c := by
  unfold canonicalBindings
  rw [List.mem_filterMap]
  constructor
  · rintro ⟨r, hr, h⟩
    by_cases hc : r.ChannelId = []
    · simp [hc] at h
    · rw [if_neg hc] at h
      cases hg : gcc PortID r.ChannelId with
      | none => simp [hg] at h
      | some conn =>
        simp only [hg, Option.map_some', Option.some.injEq, Prod.mk.injEq] at h
        exact ⟨r, hr, hc, conn, hg, h.1, h.2⟩
  · rintro ⟨r, hr, hc, conn, hg, hid, hcl⟩
    exact ⟨r, hr, by simp [hc, hg, hid, hcl]⟩

/-- C9: for every rollapp store (its rollapp ids pairwise different), when
`migrateRollappLightClients` returns nil it has called `SetCanonicalClient`
exactly once for each rollapp with a non-empty `ChannelId`, with the client id of
the connection of its transfer-port channel, and for no rollapp with an empty
`ChannelId`; a rollapp with a channel that was not bound to another client
resolves to that client afterwards, a rollapp without a channel keeps the
binding it had; and at the first rollapp whose connection lookup fails the
function returns an error, having made the calls for the rollapps before it and
none from it on. -/
theorem migrateRollappLightClients_binds_canonical_client
    (gcc : GoString → GoString → Option (GoString × ConnectionEnd))
    (list : List Rollapp) (lk : LightClientKeeper)
    (hnd : (list.map Rollapp.RollappId).Nodup) :
    ((migrateRollappLightClients gcc list lk).2 = none →
        (migrateRollappLightClients gcc list lk).1 =
            setCanonicalClients lk (canonicalBindings gcc list) ∧
          ∀ r ∈ list,
            (r.ChannelId ≠ [] →
              ∃ conn, gcc PortID r.ChannelId = some conn ∧
                (∀ c, (r.RollappId, c) ∈ canonicalBindings gcc list ↔ c = conn.2.ClientId) ∧
                (GetCanonicalClient lk r.RollappId = none ∨
                    GetCanonicalClient lk r.RollappId = some conn.2.ClientId →
                  GetCanonicalClient (migrateRollappLightClients gcc list lk).1 r.RollappId =
                    some conn.2.ClientId)) ∧
            (r.ChannelId = [] →
              (∀ c, (r.RollappId, c) ∉ canonicalBindings gcc list) ∧
                GetCanonicalClient (migrateRollappLightClients gcc list lk).1 r.RollappId =
                  GetCanonicalClient lk r.RollappId)) ∧
      (∀ pre r post, list = pre ++ r :: post → r.ChannelId ≠ [] →
        gcc PortID r.ChannelId = none →
        (∀ p ∈ pre, p.ChannelId ≠ [] → gcc PortID p.ChannelId ≠ none) →
        (migrateRollappLightClients gcc list lk).2 ≠ none ∧
          (migrateRollappLightClients gcc list lk).1 =
            setCanonicalClients lk (canonicalBindings gcc pre) ∧
          ∀ q ∈ r :: post,
            (∀ c, (q.RollappId, c) ∉ canonicalBindings gcc pre) ∧
              GetCanonicalClient (migrateRollappLightClients gcc list lk).1 q.RollappId =
                GetCanonicalClient lk q.RollappId) := by
  have hinj := List.inj_on_of_nodup_map hnd
  constructor
  · intro hok
    refine ⟨lightClients_calls gcc list lk hok, ?_⟩
    intro r hr
    constructor
    · intro hc
      obtain ⟨conn, hconn⟩ := lightClients_lookup gcc list lk hok r hr hc
      refine ⟨conn, hconn, ?_, ?_⟩
      · intro c
        rw [mem_canonicalBindings]
        constructor
        · rintro ⟨r', hr', _, conn', hg', hid, hcl⟩
          have hrr : r' = r := hinj hr' hr hid
          subst hrr
          rw [hconn] at hg'
          cases hg'
          exact hcl.symm
        · intro hcl
          exact ⟨r, hr, hc, conn, hconn, rfl, hcl.symm⟩
      · exact lightClients_bound gcc list lk hnd hok r hr hc conn hconn
    · intro hc
      constructor
      · intro c hmem
        obtain ⟨r', hr', hc', _, _, hid, _⟩ := (mem_canonicalBindings gcc list _ c).mp hmem
        have hrr : r' = r := hinj hr' hr hid
        subst hrr
        exact hc' hc
      · apply lightClients_untouched
        intro r' hr' hc' e
        have hrr : r' = r := hinj hr' hr e
        subst hrr
        exact hc' hc
  · intro pre r post hlist hc hg hpre
    subst hlist
    have hstop := lightClients_stop gcc pre post r lk hc hg hpre
    have hdisj : ∀ q ∈ r :: post, ∀ p ∈ pre, p.RollappId ≠ q.RollappId := by
      intro q hq p hp e
      rw [List.map_append, List.nodup_append] at hnd
      exact hnd.2.2 (by rw [← e]; exact List.mem_map_of_mem _ hp) (List.mem_map_of_mem _ hq)
    refine ⟨hstop.1, ?_, ?_⟩
    · rw [hstop.2]
      exact lightClients_calls gcc pre lk (lightClients_ok gcc pre lk hpre)
    · intro q hq
      constructor
      · intro c hmem
        obtain ⟨p, hp, _, _, _, hid, _⟩ := (mem_canonicalBindings gcc pre _ c).mp hmem
        exact hdisj q hq p hp hid
      · rw [hstop.2]
        apply lightClients_untouched
        intro p hp _ e
        exact hdisj q hq p hp e

/-- C9, at the sample stores: `rollapp_a` is bound to the client of `channel-0`
and `rollapp_b` is not bound; with the unknown `channel-7` the run ends with an
error, having made the one call for `rollapp_a`, and leaves `rollapp_c` and
`rollapp_d` unbound. -/
theorem migrateRollappLightClients_binds_canonical_client_witness :
    (sampleRollappsUnknownChannel.map Rollapp.RollappId).Nodup ∧
      canonicalBindings sampleGetChannelConnection sampleRollapps =
        [(str "rollapp_a", str "07-tendermint-0")] ∧
      migrateRollappLightClients sampleGetChannelConnection sampleRollapps [] =
        ([(str "rollapp_a", str "07-tendermint-0")], none) ∧
      (migrateRollappLightClients sampleGetChannelConnection sampleRollappsUnknownChannel
        []).2 ≠ none ∧
      (migrateRollappLightClients sampleGetChannelConnection sampleRollappsUnknownChannel
        []).1 = setCanonicalClients []
          (canonicalBindings sampleGetChannelConnection sampleRollapps) :=
  ⟨by decide, by decide, by decide,
    ((migrateRollappLightClients_binds_canonical_client sampleGetChannelConnection
      sampleRollappsUnknownChannel [] (by decide)).2 sampleRollapps
      (sampleRollapp (str "rollapp_c") (str "channel-7"))
      [sampleRollapp (str "rollapp_d") (str "channel-0")] rfl (by decide) (by decide)
      (by decide)).1,
    ((migrateRollappLightClients_binds_canonical_client sampleGetChannelConnection
      sampleRollappsUnknownChannel [] (by decide)).2 sampleRollapps
      (sampleRollapp (str "rollapp_c") (str "channel-7"))
      [sampleRollapp (str "rollapp_d") (str "channel-0")] rfl (by decide) (by decide)
      (by decide)).2.1⟩

/-! ## `ConvertOldRollappToNew` and `migrateRollapps` -/

theorem ConvertOldRollappToNew_isSome_iff (c : UpgradeConstants) (r : Rollapp) :
    (ConvertOldRollappToNew c r).isSome = true ↔ 5 ≤ r.RollappId.length := by
  unfold ConvertOldRollappToNew slicePrefix
  by_cases h : 5 ≤ r.RollappId.length
  · simp [h]
  · simp [h]

/-- The loop over a list that starts with a run returning nil carries on from
the state that run leaves. -/
theorem migrateRollappsLoop_append (c : UpgradeConstants) (co : RollappCollaborators)
    (pre rest : List Rollapp) (k k' : RollappKeepers)
    (h : migrateRollappsLoop c co pre k = Outcome.returned k' none) :
    migrateRollappsLoop c co (pre ++ rest) k = migrateRollappsLoop c co rest k' := by
  induction pre generalizing k with
  | nil =>
    simp only [migrateRollappsLoop, Outcome.returned.injEq, and_true] at h
    rw [List.nil_append, h]
  | cons x pre ih =>
    rw [List.cons_append]
    simp only [migrateRollappsLoop] at h ⊢
    cases hconv : ConvertOldRollappToNew c x with
    | none => simp [hconv] at h
    | some newRollapp =>
      simp only [hconv] at h ⊢
      cases hval : co.ValidateBasic newRollapp with
      | some err => simp [hval] at h
      | none =>
        simp only [hval] at h ⊢
        split
        · rename_i hnim
          rw [if_pos hnim] at h
          split
          · rename_i err herr
            simp [herr] at h
          · rename_i aliases hal
            simp only [hal] at h
            exact ih _ h
        · rename_i hnim
          rw [if_neg hnim] at h
          split
          · rename_i hmande
            rw [if_pos hmande] at h
            split
            · rename_i err herr
              simp [herr] at h
            · rename_i aliases hal
              simp only [hal] at h
              exact ih _ h
          · rename_i hmande
            rw [if_neg hmande] at h
            exact ih _ h

/-- C10: `ConvertOldRollappToNew` is defined exactly for the rollapps whose
`RollappId` has at least 5 bytes: for those it returns a value, for a shorter
`RollappId` the slice `RollappId[:5]` is out of bounds and the call panics; and
`migrateRollapps`, which converts every rollapp of the store, panics as soon as
its loop reaches such a rollapp. -/
theorem ConvertOldRollappToNew_defined_iff_five_bytes (c : UpgradeConstants) (r : Rollapp) :
    ((∃ newRollapp, ConvertOldRollappToNew c r = some newRollapp) ↔ 5 ≤ r.RollappId.length) ∧
      (ConvertOldRollappToNew c r = none ↔ r.RollappId.length < 5) ∧
      (r.RollappId.length < 5 → slicePrefix r.RollappId 5 = none) ∧
      (∀ (co : RollappCollaborators) (k k' : RollappKeepers) (pre post : List Rollapp),
        k.rollapps = pre ++ r :: post → r.RollappId.length < 5 →
        migrateRollappsLoop c co pre k = Outcome.returned k' none →
        migrateRollapps c co k = Outcome.panicked) := by
  have hiff := ConvertOldRollappToNew_isSome_iff c r
  have hnone : ConvertOldRollappToNew c r = none ↔ r.RollappId.length < 5 := by
    rw [← not_le, ← hiff]
    cases ConvertOldRollappToNew c r <;> simp
  refine ⟨?_, hnone, ?_, ?_⟩
  · rw [← hiff, Option.isSome_iff_exists]
  · intro h
    simp [slicePrefix, Nat.not_le.mpr h]
  · intro co k k' pre post hk hlen hpre
    unfold migrateRollapps
    rw [hk, migrateRollappsLoop_append c co pre (r :: post) k k' hpre]
    simp only [migrateRollappsLoop, hnone.mpr hlen]

/-- The conversion and the migration at concrete rollapps: `abcd` has four
bytes, `abcde` five. -/
theorem ConvertOldRollappToNew_examples :
    ConvertOldRollappToNew sampleConstants (sampleRollapp (str "abcd") []) = none ∧
      (ConvertOldRollappToNew sampleConstants (sampleRollapp (str "abcde") [])).map
        (fun n => n.GenesisInfo.Bech32Prefix) = some (str "abcde") ∧
      migrateRollapps sampleConstants sampleCollaborators
        ⟨[sampleRollapp (str "abcde") [], sampleRollapp (str "abcd") []], []⟩ =
          Outcome.panicked := by
  decide

end V4
